import Mathlib

/-!
# Verification of the AI-Script-Generator core pipeline

A shallow embedding, in Lean 4, of the parts of the repository that the
specification's claims are about:

* `src/utils/text_processor.py` — the `TextProcessor` class: `clean_text`
  and its helpers `_fix_ocr_errors` and `_normalize_punctuation`.
  Python strings are modelled as `List Char`; each `re.sub` call is
  modelled by a recursive scanner with the same match/replace semantics.
* `src/core/transformer.py` — the `TranscriptTransformer` class:
  `_api_call_with_enhanced_retries`, `_generate_detailed_structure`,
  `_generate_fallback_structure`, `_generate_section` (prompt
  construction and defensive response handling), `_generate_main_content`
  (per-topic word allocation and covered/pending topic tracking) and
  `transform_to_lecture` (orchestration with its try/except policy).
  The remote completion endpoint is modelled as an oracle value
  (`ApiOutcome`): either a raised exception or a response object whose
  fields may each be missing, exactly as the defensive checks in the
  source allow.  Parsed JSON values are modelled by the inductive `Json`;
  `json.loads` is modelled by an executable recursive-descent parser.

Python `int` / `float` arithmetic is modelled over `ℤ` / `ℚ` with explicit
truncation (`pyInt`); fallible Python operations (dict key access on
parsed JSON, `str.join` over non-strings, division by zero) return
`Except PyErr`.
-/

namespace ScriptGen

/-! ## Character classes

`pyWs` models Python's whitespace class for `str.split`, `str.strip` and
the regex `\s` on ASCII text: space, tab, newline, carriage return,
vertical tab, form feed.  `stopPunct` is the regex class `[.!?]`,
`punctComma` is `[.!?,]`, `asciiUpper` is `[A-Z]`. -/

def pyWs (c : Char) : Bool :=
  c = ' ' || c = '\t' || c = '\n' || c = '\r' || c = '\x0b' || c = '\x0c'

def stopPunct (c : Char) : Bool :=
  c = '.' || c = '!' || c = '?'

def punctComma (c : Char) : Bool :=
  stopPunct c || c = ','

def asciiUpper (c : Char) : Bool :=
  'A' ≤ c && c ≤ 'Z'

/-! ## `TextProcessor.clean_text` (src/utils/text_processor.py, lines 12–31)

```python
text = ' '.join(text.split())        # joinSplit
text = self._fix_ocr_errors(text)    # fixOcrErrors
text = self._normalize_punctuation(text)  # normalizePunctuation
return text.strip()                  # pyStrip
``` -/

/-- Scanner for `' '.join(text.split())` after the leading whitespace has
been dropped.  `pend` records that a whitespace run has been seen since
the last word character; a following word character is then preceded by a
single `' '` (the join separator), and a trailing run emits nothing (it
starts no further word). -/
def joinSplitGo (pend : Bool) : List Char → List Char
  | [] => []
  | c :: cs =>
    if pyWs c then joinSplitGo true cs
    else if pend then ' ' :: c :: joinSplitGo false cs
    else c :: joinSplitGo false cs

/-- `' '.join(text.split())` (line 23): collapse every interior whitespace
run to a single space and drop leading/trailing whitespace. -/
def joinSplit (l : List Char) : List Char :=
  joinSplitGo false (l.dropWhile pyWs)

/-- `re.sub(r'[|]', 'I', ·)` applied characterwise (line 63). -/
def ocrBar (c : Char) : Char := if c = '|' then 'I' else c

/-- `re.sub(r'0', 'O', ·)` applied characterwise (line 64). -/
def ocrZero (c : Char) : Char := if c = '0' then 'O' else c

/-- `re.sub(r'1', 'l', ·)` applied characterwise (line 65). -/
def ocrOne (c : Char) : Char := if c = '1' then 'l' else c

/-- Scanner for `re.sub(r'\s+', ' ', ·)` (line 66): each maximal
whitespace run becomes a single space, emitted at the head of the run
(`inRun` records that the current character continues a run). -/
def wsRunSubGo (inRun : Bool) : List Char → List Char
  | [] => []
  | c :: cs =>
    if pyWs c then
      if inRun then wsRunSubGo true cs else ' ' :: wsRunSubGo true cs
    else c :: wsRunSubGo false cs

/-- `re.sub(r'\s+', ' ', ·)` (line 66). -/
def wsRunSub (l : List Char) : List Char := wsRunSubGo false l

/-- `TextProcessor._fix_ocr_errors` (lines 60–71): the four substitutions
of the `replacements` dict, applied in insertion order. -/
def fixOcrErrors (l : List Char) : List Char :=
  wsRunSub (((l.map ocrBar).map ocrZero).map ocrOne)

/-- Scanner for `re.sub(r'\.{2,}', '.', ·)` (line 76): every maximal run
of two or more periods becomes a single period.  (A run of length one is
not matched by the regex and is left as is; this scanner re-emits it
unchanged, which is the same thing.) -/
def dotRunSubGo (inRun : Bool) : List Char → List Char
  | [] => []
  | c :: cs =>
    if c = '.' then
      if inRun then dotRunSubGo true cs else '.' :: dotRunSubGo true cs
    else c :: dotRunSubGo false cs

/-- `re.sub(r'\.{2,}', '.', ·)` (line 76). -/
def dotRunSub (l : List Char) : List Char := dotRunSubGo false l

/-- `re.sub(r'([.!?])([A-Z])', r'\1 \2', ·)` (line 79): insert a space
between sentence punctuation and an immediately following capital; the
scan is non-overlapping, consuming both matched characters. -/
def punctCapSub : List Char → List Char
  | [] => []
  | [c] => [c]
  | a :: b :: rest =>
    if stopPunct a && asciiUpper b then a :: ' ' :: b :: punctCapSub rest
    else a :: punctCapSub (b :: rest)

/-- Scanner for `re.sub(r'\s+([.!?,])', r'\1', ·)` (line 82): `run`
buffers (in reverse) the whitespace run currently being read.  When the
character after the run is punctuation the run is deleted and only the
punctuation kept (the regex match consumes both); otherwise the run is
flushed unchanged.  A whitespace run is matched only as a maximal run,
which is exactly what the buffering implements: from any position inside
a run the greedy `\s+` extends to the run's end, so the only candidate
match ends at the first non-whitespace character. -/
def wsPunctAux : List Char → List Char → List Char
  | run, [] => run.reverse
  | run, c :: cs =>
    if pyWs c then wsPunctAux (c :: run) cs
    else if run.isEmpty then c :: wsPunctAux [] cs
    else if punctComma c then c :: wsPunctAux [] cs
    else run.reverse ++ (c :: wsPunctAux [] cs)

/-- `re.sub(r'\s+([.!?,])', r'\1', ·)` (line 82). -/
def wsPunctSub (l : List Char) : List Char := wsPunctAux [] l

/-- `TextProcessor._normalize_punctuation` (lines 73–84). -/
def normalizePunctuation (l : List Char) : List Char :=
  wsPunctSub (punctCapSub (dotRunSub l))

/-- Python `str.strip()`: drop leading and trailing whitespace. -/
def pyStrip (l : List Char) : List Char :=
  ((l.dropWhile pyWs).reverse.dropWhile pyWs).reverse

/-- `TextProcessor.clean_text` (lines 12–31) on character lists. -/
def cleanTextL (l : List Char) : List Char :=
  pyStrip (normalizePunctuation (fixOcrErrors (joinSplit l)))

/-- `TextProcessor.clean_text` on strings. -/
def cleanText (s : String) : String :=
  (cleanTextL s.toList).asString

example : cleanText "a. ." = "a.." := by decide
example : cleanText "a.." = "a." := by decide
example : cleanText "  hello   world0 " = "hello worldO" := by decide
example : cleanText "He said.Yes|  1 . " = "He said. YesI l." := by decide

/-! ## Invariants of the cleaning pipeline

These predicates describe the shape of `clean_text` output; they drive
both the OCR-character claim and the idempotence analysis. -/

/-- Every whitespace character in the list is a plain `' '`. -/
def SpacesBlank (l : List Char) : Prop := ∀ c ∈ l, pyWs c = true → c = ' '

/-- None of the characters rewritten by `_fix_ocr_errors` remain. -/
def NoOcrChars (l : List Char) : Prop := ∀ c ∈ l, c ≠ '0' ∧ c ≠ '1' ∧ c ≠ '|'

/-- No two adjacent whitespace characters. -/
def NoWW (l : List Char) : Prop :=
  l.Chain' fun a b => ¬(pyWs a = true ∧ pyWs b = true)

/-- No whitespace character immediately followed by `[.!?,]` punctuation. -/
def NoWsP (l : List Char) : Prop :=
  l.Chain' fun a b => ¬(pyWs a = true ∧ punctComma b = true)

/-- No `[.!?]` punctuation immediately followed by an ASCII capital. -/
def NoPC (l : List Char) : Prop :=
  l.Chain' fun a b => ¬(stopPunct a = true ∧ asciiUpper b = true)

/-- No two adjacent period characters. -/
def NoDD (l : List Char) : Prop :=
  l.Chain' fun a b => ¬(a = '.' ∧ b = '.')

/-- The first character, if any, is not whitespace. -/
def FrontNoWs (l : List Char) : Prop := ∀ c, l.head? = some c → pyWs c = false

/-- The last character, if any, is not whitespace. -/
def BackNoWs (l : List Char) : Prop := ∀ c, l.getLast? = some c → pyWs c = false

/-! ### Character-class facts -/

theorem pyWs_cases {c : Char} (h : pyWs c = true) :
    c = ' ' ∨ c = '\t' ∨ c = '\n' ∨ c = '\r' ∨ c = '\x0b' ∨ c = '\x0c' := by
  have := h
  simp [pyWs] at this
  tauto

theorem stopPunct_cases {c : Char} (h : stopPunct c = true) :
    c = '.' ∨ c = '!' ∨ c = '?' := by
  have := h
  simp [stopPunct] at this
  tauto

theorem punctComma_cases {c : Char} (h : punctComma c = true) :
    c = '.' ∨ c = '!' ∨ c = '?' ∨ c = ',' := by
  have := h
  simp [punctComma, stopPunct] at this
  tauto

theorem stopPunct_not_ws {c : Char} (h : stopPunct c = true) : pyWs c = false := by
  rcases stopPunct_cases h with rfl | rfl | rfl <;> decide

theorem punctComma_not_ws {c : Char} (h : punctComma c = true) : pyWs c = false := by
  rcases punctComma_cases h with rfl | rfl | rfl | rfl <;> decide

theorem pyWs_not_punct {c : Char} (h : pyWs c = true) : punctComma c = false := by
  rcases pyWs_cases h with rfl | rfl | rfl | rfl | rfl | rfl <;> decide

theorem pyWs_not_upper {c : Char} (h : pyWs c = true) : asciiUpper c = false := by
  rcases pyWs_cases h with rfl | rfl | rfl | rfl | rfl | rfl <;> decide

theorem punctComma_not_upper {c : Char} (h : punctComma c = true) :
    asciiUpper c = false := by
  rcases punctComma_cases h with rfl | rfl | rfl | rfl <;> decide

theorem asciiUpper_not_stop {c : Char} (h : asciiUpper c = true) :
    stopPunct c = false := by
  cases hs : stopPunct c with
  | false => rfl
  | true =>
    rcases stopPunct_cases hs with rfl | rfl | rfl <;> exact absurd h (by decide)

theorem asciiUpper_not_ws {c : Char} (h : asciiUpper c = true) : pyWs c = false := by
  cases hs : pyWs c with
  | false => rfl
  | true =>
    rcases pyWs_cases hs with rfl | rfl | rfl | rfl | rfl | rfl <;>
      exact absurd h (by decide)

/-! ### Stage lemmas: `joinSplit` output shape -/

theorem spacesBlank_joinSplitGo (l : List Char) :
    ∀ pend, SpacesBlank (joinSplitGo pend l) := by
  induction l with
  | nil => intro pend c hc; simp [joinSplitGo] at hc
  | cons c cs ih =>
    intro pend d hd hdw
    by_cases hw : pyWs c
    · rw [joinSplitGo, if_pos hw] at hd
      exact ih true d hd hdw
    · cases pend with
      | false =>
        rw [joinSplitGo, if_neg hw, if_neg (by simp)] at hd
        rcases List.mem_cons.mp hd with rfl | hd'
        · exact absurd hdw (by simp [hw])
        · exact ih false d hd' hdw
      | true =>
        rw [joinSplitGo, if_neg hw, if_pos rfl] at hd
        rcases List.mem_cons.mp hd with rfl | hd'
        · rfl
        · rcases List.mem_cons.mp hd' with rfl | hd''
          · exact absurd hdw (by simp [hw])
          · exact ih false d hd'' hdw

theorem noWW_joinSplitGo (l : List Char) :
    ∀ pend, NoWW (joinSplitGo pend l) := by
  induction l with
  | nil => intro pend; simp [joinSplitGo, NoWW]
  | cons c cs ih =>
    intro pend
    by_cases hw : pyWs c
    · rw [joinSplitGo, if_pos hw]
      exact ih true
    · have hc : NoWW (c :: joinSplitGo false cs) := by
        rw [NoWW, List.chain'_cons']
        exact ⟨fun y _ hpair => by simp [hw] at hpair, ih false⟩
      cases pend with
      | false => rw [joinSplitGo, if_neg hw, if_neg (by simp)]; exact hc
      | true =>
        rw [joinSplitGo, if_neg hw, if_pos rfl, NoWW, List.chain'_cons]
        exact ⟨fun hpair => by simp [hw] at hpair, hc⟩

theorem spacesBlank_joinSplit (l : List Char) : SpacesBlank (joinSplit l) :=
  spacesBlank_joinSplitGo _ _

theorem noWW_joinSplit (l : List Char) : NoWW (joinSplit l) :=
  noWW_joinSplitGo _ _

/-! ### Stage lemmas: the OCR character maps -/

/-- The composite of the three characterwise OCR replacements. -/
def ocrFix (c : Char) : Char := ocrOne (ocrZero (ocrBar c))

theorem mapOcr_eq (l : List Char) :
    ((l.map ocrBar).map ocrZero).map ocrOne = l.map ocrFix := by
  simp [List.map_map, ocrFix, Function.comp_def]

theorem ocrFix_pyWs (c : Char) : pyWs (ocrFix c) = pyWs c := by
  by_cases h1 : c = '|'
  · subst h1; decide
  · by_cases h2 : c = '0'
    · subst h2; decide
    · by_cases h3 : c = '1'
      · subst h3; decide
      · simp [ocrFix, ocrBar, ocrZero, ocrOne, h1, h2, h3]

theorem ocrFix_no_ocr (c : Char) :
    ocrFix c ≠ '0' ∧ ocrFix c ≠ '1' ∧ ocrFix c ≠ '|' := by
  by_cases h1 : c = '|'
  · subst h1; decide
  · by_cases h2 : c = '0'
    · subst h2; decide
    · by_cases h3 : c = '1'
      · subst h3; decide
      · simp [ocrFix, ocrBar, ocrZero, ocrOne, h1, h2, h3]

theorem ocrFix_space : ocrFix ' ' = ' ' := by decide

theorem spacesBlank_mapOcr {l : List Char} (h : SpacesBlank l) :
    SpacesBlank (l.map ocrFix) := by
  intro d hd hdw
  rcases List.mem_map.mp hd with ⟨x, hx, rfl⟩
  have hxw : pyWs x = true := by rw [← ocrFix_pyWs]; exact hdw
  rw [h x hx hxw, ocrFix_space]

theorem noWW_mapOcr {l : List Char} (h : NoWW l) : NoWW (l.map ocrFix) := by
  rw [NoWW, List.chain'_map]
  exact h.imp fun {a b} hab => by
    simpa [ocrFix_pyWs] using hab

theorem noOcr_mapOcr (l : List Char) : NoOcrChars (l.map ocrFix) := by
  intro d hd
  rcases List.mem_map.mp hd with ⟨x, _, rfl⟩
  exact ocrFix_no_ocr x

/-! ### Stage lemmas: `wsRunSub` is the identity on single-spaced text -/

theorem frontNoWs_of_noWW_cons {c : Char} {cs : List Char}
    (hw : pyWs c = true) (h : NoWW (c :: cs)) : FrontNoWs cs := by
  intro d hd
  have := (List.chain'_cons'.mp h).1 d (by simpa using hd)
  by_contra hdw
  simp only [Bool.not_eq_false] at hdw
  exact this ⟨hw, hdw⟩

theorem wsRunSubGo_id {l : List Char} (hs : SpacesBlank l) (hn : NoWW l) :
    ∀ b, (b = true → FrontNoWs l) → wsRunSubGo b l = l := by
  induction l with
  | nil => intro b _; cases b <;> rfl
  | cons c cs ih =>
    intro b hb
    have hstail : SpacesBlank cs := fun d hd => hs d (List.mem_cons_of_mem _ hd)
    have hntail : NoWW cs := hn.tail
    by_cases hw : pyWs c
    · cases b with
      | true => exact absurd (hb rfl c rfl) (by simp [hw])
      | false =>
        rw [wsRunSubGo, if_pos hw, if_neg (by simp)]
        rw [ih hstail hntail true (fun _ => frontNoWs_of_noWW_cons hw hn)]
        rw [hs c (by simp) hw]
    · cases b <;>
      · rw [wsRunSubGo, if_neg hw]
        rw [ih hstail hntail false (by simp)]

theorem wsRunSub_id {l : List Char} (hs : SpacesBlank l) (hn : NoWW l) :
    wsRunSub l = l :=
  wsRunSubGo_id hs hn false (by simp)

/-! ### Stage lemmas: `dotRunSub` -/

theorem dotRunSubGo_false_head (l : List Char) :
    (dotRunSubGo false l).head? = l.head? := by
  cases l with
  | nil => rfl
  | cons c cs =>
    by_cases hc : c = '.'
    · subst hc; rw [dotRunSubGo, if_pos rfl, if_neg (by simp)]; rfl
    · rw [dotRunSubGo, if_neg hc]; rfl

/-- Collapsing period runs preserves every adjacency relation: each pair
adjacent in the output was already adjacent in the input (the character
kept from a collapsed run is a period, as was the run's last character).
The second conjunct is the invariant for the mid-run state. -/
theorem dotRunSubGo_chain (l : List Char) :
    (∀ R : Char → Char → Prop, l.Chain' R → (dotRunSubGo false l).Chain' R) ∧
    (∀ R : Char → Char → Prop, ('.' :: l).Chain' R →
      ('.' :: dotRunSubGo true l).Chain' R) := by
  induction l with
  | nil =>
    constructor
    · intro R _; simp [dotRunSubGo]
    · intro R _; simp [dotRunSubGo]
  | cons c cs ih =>
    constructor
    · intro R h
      by_cases hc : c = '.'
      · subst hc
        rw [dotRunSubGo, if_pos rfl, if_neg (by simp)]
        exact ih.2 R h
      · rw [dotRunSubGo, if_neg hc, List.chain'_cons']
        refine ⟨?_, ih.1 R h.tail⟩
        intro y hy
        rw [dotRunSubGo_false_head] at hy
        exact (List.chain'_cons'.mp h).1 y hy
    · intro R h
      by_cases hc : c = '.'
      · subst hc
        rw [dotRunSubGo, if_pos rfl, if_pos rfl]
        exact ih.2 R h.tail
      · rw [dotRunSubGo, if_neg hc, List.chain'_cons]
        constructor
        · exact (List.chain'_cons.mp h).1
        · rw [List.chain'_cons']
          refine ⟨?_, ih.1 R h.tail.tail⟩
          intro y hy
          rw [dotRunSubGo_false_head] at hy
          exact (List.chain'_cons'.mp h.tail).1 y hy

theorem dotRunSubGo_subset (l : List Char) :
    ∀ b, ∀ d ∈ dotRunSubGo b l, d ∈ l := by
  induction l with
  | nil => intro b d hd; simp [dotRunSubGo] at hd
  | cons c cs ih =>
    intro b d hd
    by_cases hc : c = '.'
    · subst hc
      cases b with
      | true =>
        rw [dotRunSubGo, if_pos rfl, if_pos rfl] at hd
        exact List.mem_cons_of_mem _ (ih true d hd)
      | false =>
        rw [dotRunSubGo, if_pos rfl, if_neg (by simp)] at hd
        rcases List.mem_cons.mp hd with rfl | hd'
        · simp
        · exact List.mem_cons_of_mem _ (ih true d hd')
    · rw [dotRunSubGo, if_neg hc] at hd
      rcases List.mem_cons.mp hd with rfl | hd'
      · simp
      · exact List.mem_cons_of_mem _ (ih false d hd')

theorem dotRunSubGo_id : ∀ {l : List Char}, NoDD l → dotRunSubGo false l = l := by
  intro l
  induction l with
  | nil => intro _; rfl
  | cons c cs ih =>
    intro h
    by_cases hc : c = '.'
    · subst hc
      rw [dotRunSubGo, if_pos rfl, if_neg (by simp)]
      cases cs with
      | nil => rfl
      | cons d ds =>
        have hd : ¬(d = '.') := by
          intro hdd
          exact (List.chain'_cons'.mp h).1 d rfl ⟨rfl, hdd⟩
        rw [dotRunSubGo, if_neg hd]
        have htail := ih h.tail
        rw [dotRunSubGo, if_neg hd] at htail
        rw [(List.cons.injEq .. |>.mp htail).2]
    · rw [dotRunSubGo, if_neg hc, ih h.tail]

/-! ### Stage lemmas: `punctCapSub` -/

theorem punctCapSub_head (l : List Char) : (punctCapSub l).head? = l.head? := by
  match l with
  | [] => rfl
  | [c] => rfl
  | a :: b :: rest =>
    rw [punctCapSub]
    by_cases h : stopPunct a && asciiUpper b
    · rw [if_pos h]; rfl
    · rw [if_neg h]; rfl

theorem noPC_punctCapSub (l : List Char) : NoPC (punctCapSub l) := by
  induction l using punctCapSub.induct with
  | case1 => simp [punctCapSub, NoPC]
  | case2 c => simp [punctCapSub, NoPC]
  | case3 a b rest h ih =>
    have hb : asciiUpper b = true := (Bool.and_eq_true .. |>.mp h).2
    rw [punctCapSub, if_pos h, NoPC, List.chain'_cons, List.chain'_cons]
    refine ⟨fun hp => absurd hp.2 (by decide), fun hp => absurd hp.1 (by decide), ?_⟩
    rw [List.chain'_cons']
    refine ⟨fun y _ hp => ?_, ih⟩
    rw [asciiUpper_not_stop hb] at hp
    exact absurd hp.1 (by simp)
  | case4 a b rest h ih =>
    rw [punctCapSub, if_neg h, NoPC, List.chain'_cons']
    refine ⟨?_, ih⟩
    intro y hy hp
    rw [punctCapSub_head] at hy
    simp only [List.head?_cons, Option.mem_def, Option.some.injEq] at hy
    subst hy
    exact h (by simp [hp.1, hp.2])

theorem noWW_punctCapSub {l : List Char} (hn : NoWW l) : NoWW (punctCapSub l) := by
  induction l using punctCapSub.induct with
  | case1 => simp [punctCapSub, NoWW]
  | case2 c => simp [punctCapSub, NoWW]
  | case3 a b rest h ih =>
    have ha : stopPunct a = true := (Bool.and_eq_true .. |>.mp h).1
    have hb : asciiUpper b = true := (Bool.and_eq_true .. |>.mp h).2
    rw [punctCapSub, if_pos h, NoWW, List.chain'_cons, List.chain'_cons]
    refine ⟨by simp [stopPunct_not_ws ha], by simp [asciiUpper_not_ws hb], ?_⟩
    rw [List.chain'_cons']
    exact ⟨fun y _ hp => by simp [asciiUpper_not_ws hb] at hp,
      ih (hn.tail.tail)⟩
  | case4 a b rest h ih =>
    rw [punctCapSub, if_neg h, NoWW, List.chain'_cons']
    refine ⟨?_, ih hn.tail⟩
    intro y hy hp
    rw [punctCapSub_head] at hy
    simp only [List.head?_cons, Option.mem_def, Option.some.injEq] at hy
    subst hy
    exact (List.chain'_cons.mp hn).1 hp

theorem punctCapSub_subset (l : List Char) :
    ∀ d ∈ punctCapSub l, d ∈ l ∨ d = ' ' := by
  induction l using punctCapSub.induct with
  | case1 => intro d hd; simp [punctCapSub] at hd
  | case2 c => intro d hd; simp [punctCapSub] at hd; simp [hd]
  | case3 a b rest h ih =>
    intro d hd
    rw [punctCapSub, if_pos h] at hd
    rcases List.mem_cons.mp hd with rfl | hd'
    · simp
    · rcases List.mem_cons.mp hd' with rfl | hd''
      · right; rfl
      · rcases List.mem_cons.mp hd'' with rfl | hd3
        · simp
        · rcases ih d hd3 with hmem | hsp
          · exact Or.inl (by simp [hmem])
          · exact Or.inr hsp
  | case4 a b rest h ih =>
    intro d hd
    rw [punctCapSub, if_neg h] at hd
    rcases List.mem_cons.mp hd with rfl | hd'
    · simp
    · rcases ih d hd' with hmem | hsp
      · exact Or.inl (List.mem_cons_of_mem _ hmem)
      · exact Or.inr hsp

theorem punctCapSub_id : ∀ {l : List Char}, NoPC l → punctCapSub l = l := by
  intro l
  induction l using punctCapSub.induct with
  | case1 => intro _; rfl
  | case2 c => intro _; rfl
  | case3 a b rest h ih =>
    intro hp
    exact absurd (Bool.and_eq_true .. |>.mp h)
      (fun hc => (List.chain'_cons.mp hp).1 hc)
  | case4 a b rest h ih =>
    intro hp
    rw [punctCapSub, if_neg h, ih hp.tail]

/-! ### Stage lemmas: `wsPunctSub` -/

theorem pyWs_not_stop {c : Char} (h : pyWs c = true) : stopPunct c = false := by
  cases hs : stopPunct c with
  | false => rfl
  | true =>
    have : punctComma c = true := by simp [punctComma, hs]
    rw [pyWs_not_punct h] at this
    exact absurd this (by simp)

theorem chain_allWs {P : Char → Char → Prop} (hP : ∀ a b, pyWs b = true → P a b) :
    ∀ l : List Char, (∀ c ∈ l, pyWs c = true) → l.Chain' P := by
  intro l
  induction l with
  | nil => intro _; simp
  | cons c cs ih =>
    intro h
    rw [List.chain'_cons']
    refine ⟨fun y hy => ?_, ih fun d hd => h d (List.mem_cons_of_mem _ hd)⟩
    exact hP c y (h y (List.mem_cons_of_mem _ (List.mem_of_mem_head? hy)))

/-- Head characterization for the buffered scanner: the first output
character is whitespace (a flushed run), punctuation (a match's kept
character), or — when no run is buffered — the input's own head. -/
theorem wsPunctAux_head :
    ∀ (l run : List Char), (∀ c ∈ run, pyWs c = true) → ∀ x : Char,
      (wsPunctAux run l).head? = some x →
      pyWs x = true ∨ punctComma x = true ∨ (run = [] ∧ l.head? = some x) := by
  intro l
  induction l with
  | nil =>
    intro run hrun x hx
    rw [wsPunctAux, List.head?_reverse] at hx
    exact Or.inl (hrun x (List.mem_of_mem_getLast? (by simp [hx])))
  | cons c cs ih =>
    intro run hrun x hx
    by_cases hw : pyWs c
    · rw [wsPunctAux, if_pos hw] at hx
      rcases ih (c :: run) (by
        intro d hd
        rcases List.mem_cons.mp hd with rfl | hd'
        · exact hw
        · exact hrun d hd') x hx with h1 | h2 | h3
      · exact Or.inl h1
      · exact Or.inr (Or.inl h2)
      · exact absurd h3.1 (by simp)
    · by_cases hre : run.isEmpty
      · rw [wsPunctAux, if_neg hw, if_pos hre] at hx
        simp only [List.head?_cons, Option.some.injEq] at hx
        subst hx
        exact Or.inr (Or.inr ⟨List.isEmpty_iff.mp hre, rfl⟩)
      · by_cases hp : punctComma c
        · rw [wsPunctAux, if_neg hw, if_neg hre, if_pos hp] at hx
          simp only [List.head?_cons, Option.some.injEq] at hx
          subst hx
          exact Or.inr (Or.inl hp)
        · rw [wsPunctAux, if_neg hw, if_neg hre, if_neg hp, List.head?_append] at hx
          cases hrev : run.reverse.head? with
          | none =>
            rw [hrev, Option.none_or] at hx
            simp only [List.head?_cons, Option.some.injEq] at hx
            exact absurd (List.isEmpty_iff.mpr (by
              have := List.reverse_eq_nil_iff.mp (List.head?_eq_none_iff.mp hrev)
              exact this)) hre
          | some w =>
            rw [hrev] at hx
            rw [show (some w).or (c :: wsPunctAux [] cs).head? = some w from rfl,
              Option.some.injEq] at hx
            rw [List.head?_reverse] at hrev
            refine Or.inl ?_
            rw [← hx]
            exact hrun w (List.mem_of_mem_getLast? (by simp [hrev]))

/-- `_normalize_punctuation`'s final substitution establishes: no
whitespace character immediately followed by punctuation remains. -/
theorem noWsP_wsPunctAux :
    ∀ (l run : List Char), (∀ c ∈ run, pyWs c = true) →
      NoWsP (wsPunctAux run l) := by
  intro l
  induction l with
  | nil =>
    intro run hrun
    rw [wsPunctAux]
    exact chain_allWs (fun a b hb => by simp [pyWs_not_punct hb])
      _ (fun d hd => hrun d (List.mem_reverse.mp hd))
  | cons c cs ih =>
    intro run hrun
    by_cases hw : pyWs c
    · rw [wsPunctAux, if_pos hw]
      refine ih (c :: run) ?_
      intro d hd
      rcases List.mem_cons.mp hd with rfl | hd'
      · exact hw
      · exact hrun d hd'
    · have hc : NoWsP (c :: wsPunctAux [] cs) := by
        rw [NoWsP, List.chain'_cons']
        exact ⟨fun y _ hpair => by simp [hw] at hpair, ih [] (by simp)⟩
      by_cases hre : run.isEmpty
      · rw [wsPunctAux, if_neg hw, if_pos hre]
        exact hc
      · by_cases hp : punctComma c
        · rw [wsPunctAux, if_neg hw, if_neg hre, if_pos hp]
          rw [NoWsP, List.chain'_cons']
          exact ⟨fun y _ hpair => by
              simp [punctComma_not_ws hp] at hpair,
            ih [] (by simp)⟩
        · rw [wsPunctAux, if_neg hw, if_neg hre, if_neg hp]
          rw [NoWsP, List.chain'_append]
          refine ⟨chain_allWs (fun a b hb => by simp [pyWs_not_punct hb]) _
              (fun d hd => hrun d (List.mem_reverse.mp hd)), hc, ?_⟩
          intro x _ y hy
          simp only [List.head?_cons, Option.mem_def, Option.some.injEq] at hy
          subst hy
          exact fun hpair => by simp [hp] at hpair

theorem noWW_wsPunctAux :
    ∀ l : List Char, NoWW l →
      NoWW (wsPunctAux [] l) ∧
      (∀ w, pyWs w = true → FrontNoWs l → NoWW (wsPunctAux [w] l)) := by
  intro l
  induction l with
  | nil =>
    intro _
    exact ⟨by simp [wsPunctAux, NoWW], fun w _ _ => by
      simp only [wsPunctAux, List.reverse_singleton]
      exact List.chain'_singleton w⟩
  | cons c cs ih =>
    intro h
    have htail := ih h.tail
    constructor
    · by_cases hw : pyWs c
      · rw [wsPunctAux, if_pos hw]
        exact htail.2 c hw (frontNoWs_of_noWW_cons hw h)
      · rw [wsPunctAux, if_neg hw, if_pos (by simp)]
        rw [NoWW, List.chain'_cons']
        exact ⟨fun y _ hpair => by simp [hw] at hpair, htail.1⟩
    · intro w hwws hf
      have hw : pyWs c = false := hf c rfl
      have hcons : NoWW (c :: wsPunctAux [] cs) := by
        rw [NoWW, List.chain'_cons']
        exact ⟨fun y _ hpair => by simp [hw] at hpair, htail.1⟩
      rw [wsPunctAux, if_neg (by simp [hw]), if_neg (by simp)]
      by_cases hp : punctComma c
      · rw [if_pos hp]
        exact hcons
      · rw [if_neg hp]
        simp only [List.reverse_singleton, List.singleton_append]
        rw [NoWW, List.chain'_cons]
        exact ⟨fun hpair => by simp [hw] at hpair, hcons⟩

theorem noPC_wsPunctAux :
    ∀ l : List Char, NoPC l → NoWW l →
      NoPC (wsPunctAux [] l) ∧
      (∀ w, pyWs w = true → FrontNoWs l → NoPC (wsPunctAux [w] l)) := by
  intro l
  induction l with
  | nil =>
    intro _ _
    exact ⟨by simp [wsPunctAux, NoPC], fun w _ _ => by
      simp only [wsPunctAux, List.reverse_singleton]
      exact List.chain'_singleton w⟩
  | cons c cs ih =>
    intro h hww
    have htail := ih h.tail hww.tail
    have hcons : pyWs c = false → NoPC (c :: wsPunctAux [] cs) := by
      intro hw
      rw [NoPC, List.chain'_cons']
      refine ⟨fun y hy hpair => ?_, htail.1⟩
      rcases wsPunctAux_head cs [] (by simp) y hy with h1 | h2 | h3
      · rw [pyWs_not_upper h1] at hpair
        exact absurd hpair.2 (by simp)
      · rw [punctComma_not_upper h2] at hpair
        exact absurd hpair.2 (by simp)
      · exact (List.chain'_cons'.mp h).1 y (by simp [h3.2]) hpair
    constructor
    · by_cases hw : pyWs c
      · rw [wsPunctAux, if_pos hw]
        exact htail.2 c hw (frontNoWs_of_noWW_cons hw hww)
      · rw [wsPunctAux, if_neg hw, if_pos (by simp)]
        exact hcons (by simpa using hw)
    · intro w hwws hf
      have hw : pyWs c = false := hf c rfl
      rw [wsPunctAux, if_neg (by simp [hw]), if_neg (by simp)]
      by_cases hp : punctComma c
      · rw [if_pos hp]
        exact hcons hw
      · rw [if_neg hp]
        simp only [List.reverse_singleton, List.singleton_append]
        rw [NoPC, List.chain'_cons]
        exact ⟨fun hpair => by simp [pyWs_not_stop hwws] at hpair, hcons hw⟩

theorem wsPunctAux_subset :
    ∀ (l run : List Char), ∀ d ∈ wsPunctAux run l, d ∈ run ∨ d ∈ l := by
  intro l
  induction l with
  | nil =>
    intro run d hd
    rw [wsPunctAux] at hd
    exact Or.inl (List.mem_reverse.mp hd)
  | cons c cs ih =>
    intro run d hd
    by_cases hw : pyWs c
    · rw [wsPunctAux, if_pos hw] at hd
      rcases ih (c :: run) d hd with h1 | h2
      · rcases List.mem_cons.mp h1 with rfl | h1'
        · exact Or.inr (by simp)
        · exact Or.inl h1'
      · exact Or.inr (List.mem_cons_of_mem _ h2)
    · have hcons : d ∈ c :: wsPunctAux [] cs → d ∈ run ∨ d ∈ c :: cs := by
        intro hd'
        rcases List.mem_cons.mp hd' with rfl | hd''
        · exact Or.inr (by simp)
        · rcases ih [] d hd'' with h1 | h2
          · simp at h1
          · exact Or.inr (List.mem_cons_of_mem _ h2)
      by_cases hre : run.isEmpty
      · rw [wsPunctAux, if_neg hw, if_pos hre] at hd
        exact hcons hd
      · by_cases hp : punctComma c
        · rw [wsPunctAux, if_neg hw, if_neg hre, if_pos hp] at hd
          exact hcons hd
        · rw [wsPunctAux, if_neg hw, if_neg hre, if_neg hp] at hd
          rcases List.mem_append.mp hd with h1 | h2
          · exact Or.inl (List.mem_reverse.mp h1)
          · exact hcons h2

theorem wsPunctAux_id :
    ∀ l : List Char, NoWsP l → NoWW l →
      wsPunctAux [] l = l ∧
      (∀ w, pyWs w = true → FrontNoWs l →
        (∀ x, l.head? = some x → punctComma x = false) →
        wsPunctAux [w] l = w :: l) := by
  intro l
  induction l with
  | nil =>
    intro _ _
    exact ⟨rfl, fun w _ _ _ => by simp [wsPunctAux]⟩
  | cons c cs ih =>
    intro h hww
    have htail := ih h.tail hww.tail
    constructor
    · by_cases hw : pyWs c
      · rw [wsPunctAux, if_pos hw]
        refine htail.2 c hw (frontNoWs_of_noWW_cons hw hww) ?_
        intro x hx
        cases hpx : punctComma x with
        | false => rfl
        | true =>
          exact absurd ⟨hw, hpx⟩ ((List.chain'_cons'.mp h).1 x (by simp [hx]))
      · rw [wsPunctAux, if_neg hw, if_pos (by simp), htail.1]
    · intro w hwws hf hhp
      have hw : pyWs c = false := hf c rfl
      have hp : punctComma c = false := hhp c rfl
      rw [wsPunctAux, if_neg (by simp [hw]), if_neg (by simp), if_neg (by simp [hp])]
      simp only [List.reverse_singleton, List.singleton_append]
      rw [htail.1]

/-! ### Stage lemmas: `pyStrip` -/

theorem dropWhile_front {p : Char → Bool} (l : List Char) :
    ∀ c, (l.dropWhile p).head? = some c → p c = false := by
  induction l with
  | nil => intro c hc; simp at hc
  | cons d ds ih =>
    intro c hc
    by_cases hd : p d
    · rw [List.dropWhile_cons, if_pos hd] at hc
      exact ih c hc
    · rw [List.dropWhile_cons, if_neg hd] at hc
      simp only [List.head?_cons, Option.some.injEq] at hc
      subst hc
      simpa using hd

theorem suffix_getLast {X Y : List Char} (h : X <:+ Y) (hne : X ≠ []) :
    X.getLast? = Y.getLast? := by
  obtain ⟨pre, rfl⟩ := h
  rw [List.getLast?_append]
  cases hx : X.getLast? with
  | none => exact absurd (List.getLast?_eq_none_iff.mp hx) hne
  | some a => rfl

theorem pyStrip_front (l : List Char) : FrontNoWs (pyStrip l) := by
  intro c hc
  rw [pyStrip, List.head?_reverse] at hc
  by_cases hz : ((l.dropWhile pyWs).reverse.dropWhile pyWs) = []
  · rw [hz] at hc; simp at hc
  · rw [suffix_getLast (List.dropWhile_suffix _) hz, List.getLast?_reverse] at hc
    exact dropWhile_front l c hc

theorem pyStrip_back (l : List Char) : BackNoWs (pyStrip l) := by
  intro c hc
  rw [pyStrip, List.getLast?_reverse] at hc
  exact dropWhile_front _ c hc

theorem pyStrip_part_of (l : List Char) : pyStrip l <:+: l := by
  obtain ⟨q, hq⟩ := List.dropWhile_suffix (l := l) pyWs
  obtain ⟨pre, hpre⟩ := List.dropWhile_suffix (l := (l.dropWhile pyWs).reverse) pyWs
  refine ⟨q, pre.reverse, ?_⟩
  have hmid : l.dropWhile pyWs = pyStrip l ++ pre.reverse := by
    have h2 := congrArg List.reverse hpre
    rw [List.reverse_append, List.reverse_reverse] at h2
    rw [pyStrip]
    exact h2.symm
  calc q ++ pyStrip l ++ pre.reverse
      = q ++ (pyStrip l ++ pre.reverse) := by rw [List.append_assoc]
    _ = q ++ l.dropWhile pyWs := by rw [← hmid]
    _ = l := hq

theorem pyStrip_chain' {R : Char → Char → Prop} {l : List Char}
    (h : l.Chain' R) : (pyStrip l).Chain' R :=
  h.infix (pyStrip_part_of l)

theorem pyStrip_subset {l : List Char} : ∀ d ∈ pyStrip l, d ∈ l :=
  fun _ hd => (pyStrip_part_of l).subset hd

theorem dropWhile_id_of_front {p : Char → Bool} {l : List Char}
    (h : ∀ c, l.head? = some c → p c = false) : l.dropWhile p = l := by
  cases l with
  | nil => rfl
  | cons c cs => rw [List.dropWhile_cons, h c rfl]; simp

theorem pyStrip_id {l : List Char} (hf : FrontNoWs l) (hb : BackNoWs l) :
    pyStrip l = l := by
  rw [pyStrip, dropWhile_id_of_front hf,
    dropWhile_id_of_front (fun c hc => hb c (by rw [← List.head?_reverse]; exact hc)),
    List.reverse_reverse]

/-! ### Identity of `joinSplit` on already-collapsed text -/

theorem spacesBlank_tail {c : Char} {cs : List Char} (h : SpacesBlank (c :: cs)) :
    SpacesBlank cs :=
  fun d hd => h d (List.mem_cons_of_mem _ hd)

theorem backNoWs_tail {c d : Char} {ds : List Char}
    (h : BackNoWs (c :: d :: ds)) : BackNoWs (d :: ds) := by
  intro x hx
  exact h x (by rw [List.getLast?_cons_cons]; exact hx)

theorem joinSplitGo_id :
    ∀ l : List Char, SpacesBlank l → NoWW l → BackNoWs l →
      joinSplitGo false l = l ∧
      (l ≠ [] → FrontNoWs l → joinSplitGo true l = ' ' :: l) := by
  intro l
  induction l with
  | nil => exact fun _ _ _ => ⟨rfl, fun h _ => absurd rfl h⟩
  | cons c cs ih =>
    intro hsb hww hbk
    have htails : SpacesBlank cs ∧ NoWW cs := ⟨spacesBlank_tail hsb, hww.tail⟩
    constructor
    · by_cases hw : pyWs c
      · cases cs with
        | nil => exact absurd (hbk c rfl) (by simp [hw])
        | cons d ds =>
          have hih := ih htails.1 htails.2 (backNoWs_tail hbk)
          rw [joinSplitGo, if_pos hw]
          rw [hih.2 (by simp) (frontNoWs_of_noWW_cons hw hww)]
          rw [hsb c (by simp) hw]
      · cases cs with
        | nil => rw [joinSplitGo, if_neg hw]; rfl
        | cons d ds =>
          have hih := ih htails.1 htails.2 (backNoWs_tail hbk)
          rw [joinSplitGo, if_neg hw, if_neg (by simp), hih.1]
    · intro _ hf
      have hw : pyWs c = false := hf c rfl
      cases cs with
      | nil => rw [joinSplitGo, if_neg (by simp [hw])]; rfl
      | cons d ds =>
        have hih := ih htails.1 htails.2 (backNoWs_tail hbk)
        rw [joinSplitGo, if_neg (by simp [hw]), if_pos rfl, hih.1]

theorem joinSplit_id {l : List Char} (hsb : SpacesBlank l) (hww : NoWW l)
    (hf : FrontNoWs l) (hbk : BackNoWs l) : joinSplit l = l := by
  rw [joinSplit, dropWhile_id_of_front hf]
  exact (joinSplitGo_id l hsb hww hbk).1

/-! ### Identity of the OCR maps on cleaned text -/

theorem ocrFix_id_of {c : Char} (h0 : c ≠ '0') (h1 : c ≠ '1') (hb : c ≠ '|') :
    ocrFix c = c := by
  simp [ocrFix, ocrBar, ocrZero, ocrOne, h0, h1, hb]

theorem mapOcr_id {l : List Char} (h : NoOcrChars l) : l.map ocrFix = l := by
  have : l.map ocrFix = l.map id :=
    List.map_congr_left fun a ha =>
      ocrFix_id_of (h a ha).1 (h a ha).2.1 (h a ha).2.2
  rw [this, List.map_id]

/-! ### The shape of `clean_text` output -/

/-- Every `clean_text` output satisfies the canonical-shape invariants:
all whitespace is single interior `' '` characters, no OCR-rewritten
characters remain, no whitespace precedes `[.!?,]` punctuation, and no
`[.!?]` punctuation directly precedes a capital. -/
theorem clean_canon (x : List Char) :
    SpacesBlank (cleanTextL x) ∧ NoWW (cleanTextL x) ∧ NoOcrChars (cleanTextL x) ∧
    NoPC (cleanTextL x) ∧ NoWsP (cleanTextL x) ∧
    FrontNoWs (cleanTextL x) ∧ BackNoWs (cleanTextL x) := by
  have h0sb : SpacesBlank (joinSplit x) := spacesBlank_joinSplit x
  have h0ww : NoWW (joinSplit x) := noWW_joinSplit x
  have hfix : fixOcrErrors (joinSplit x) = (joinSplit x).map ocrFix := by
    rw [fixOcrErrors, mapOcr_eq]
    exact wsRunSub_id (spacesBlank_mapOcr h0sb) (noWW_mapOcr h0ww)
  have h1sb : SpacesBlank ((joinSplit x).map ocrFix) := spacesBlank_mapOcr h0sb
  have h1ww : NoWW ((joinSplit x).map ocrFix) := noWW_mapOcr h0ww
  have h1oc : NoOcrChars ((joinSplit x).map ocrFix) := noOcr_mapOcr _
  set t1 := (joinSplit x).map ocrFix with ht1
  set t2 := dotRunSub t1 with ht2
  have h2sb : SpacesBlank t2 := fun d hd hw => h1sb d (dotRunSubGo_subset t1 false d hd) hw
  have h2ww : NoWW t2 := (dotRunSubGo_chain t1).1 _ h1ww
  have h2oc : NoOcrChars t2 := fun d hd => h1oc d (dotRunSubGo_subset t1 false d hd)
  set t3 := punctCapSub t2 with ht3
  have h3sb : SpacesBlank t3 := by
    intro d hd hw
    rcases punctCapSub_subset t2 d hd with hmem | rfl
    · exact h2sb d hmem hw
    · rfl
  have h3ww : NoWW t3 := noWW_punctCapSub h2ww
  have h3oc : NoOcrChars t3 := by
    intro d hd
    rcases punctCapSub_subset t2 d hd with hmem | rfl
    · exact h2oc d hmem
    · exact ⟨by decide, by decide, by decide⟩
  have h3pc : NoPC t3 := noPC_punctCapSub t2
  set t4 := wsPunctSub t3 with ht4
  have hsub4 : ∀ d ∈ t4, d ∈ t3 := by
    intro d hd
    rcases wsPunctAux_subset t3 [] d hd with h1 | h2
    · simp at h1
    · exact h2
  have h4sb : SpacesBlank t4 := fun d hd hw => h3sb d (hsub4 d hd) hw
  have h4ww : NoWW t4 := (noWW_wsPunctAux t3 h3ww).1
  have h4oc : NoOcrChars t4 := fun d hd => h3oc d (hsub4 d hd)
  have h4pc : NoPC t4 := (noPC_wsPunctAux t3 h3pc h3ww).1
  have h4wp : NoWsP t4 := noWsP_wsPunctAux t3 [] (by simp)
  have hr : cleanTextL x = pyStrip t4 := by
    rw [cleanTextL, normalizePunctuation, hfix]
  rw [hr]
  exact ⟨fun d hd hw => h4sb d (pyStrip_subset d hd) hw,
    pyStrip_chain' h4ww,
    fun d hd => h4oc d (pyStrip_subset d hd),
    pyStrip_chain' h4pc,
    pyStrip_chain' h4wp,
    pyStrip_front _, pyStrip_back _⟩

/-- On a string that already has the canonical `clean_text` shape and no
adjacent periods, every stage of `clean_text` is the identity. -/
theorem cleanTextL_idem_aux {x : List Char} (h : NoDD (cleanTextL x)) :
    cleanTextL (cleanTextL x) = cleanTextL x := by
  obtain ⟨hsb, hww, hoc, hpc, hwp, hf, hbk⟩ := clean_canon x
  set r := cleanTextL x with hr
  have h1 : joinSplit r = r := joinSplit_id hsb hww hf hbk
  have h2 : fixOcrErrors r = r := by
    rw [fixOcrErrors, mapOcr_eq, mapOcr_id hoc]
    exact wsRunSub_id hsb hww
  have h3 : dotRunSub r = r := dotRunSubGo_id h
  have h4 : punctCapSub r = r := punctCapSub_id hpc
  have h5 : wsPunctSub r = r := (wsPunctAux_id r hwp hww).1
  rw [cleanTextL, h1, h2, normalizePunctuation, h3, h4, h5, pyStrip_id hf hbk]

/-- Executable check for a pair of adjacent periods. -/
def hasAdjDots : List Char → Bool
  | [] => false
  | [_] => false
  | a :: b :: rest => (a = '.' && b = '.') || hasAdjDots (b :: rest)

theorem hasAdjDots_eq_false_iff :
    ∀ l : List Char, hasAdjDots l = false ↔ NoDD l := by
  intro l
  induction l using hasAdjDots.induct with
  | case1 => simp [hasAdjDots, NoDD]
  | case2 c => simp [hasAdjDots, NoDD]
  | case3 a b rest ih =>
    rw [hasAdjDots, NoDD, List.chain'_cons, Bool.or_eq_false_iff]
    rw [← NoDD, ← ih]
    constructor
    · rintro ⟨hab, hrest⟩
      refine ⟨fun hpair => ?_, hrest⟩
      rw [hpair.1, hpair.2] at hab
      simp at hab
    · rintro ⟨hab, hrest⟩
      refine ⟨?_, hrest⟩
      cases hea : (a = '.' : Bool) with
      | false => simp [hea]
      | true =>
        cases heb : (b = '.' : Bool) with
        | false => simp [heb]
        | true => exact absurd ⟨of_decide_eq_true hea, of_decide_eq_true heb⟩ hab

/-! ## Claim C6 (text cleaning idempotence) and claim C10 (OCR characters) -/

/-- C6, counterexample: text cleaning is NOT idempotent as claimed.  For
the input `"a. ."`, `clean_text` returns `"a.."` (the whitespace-before-
punctuation substitution deletes the interior space, creating a pair of
adjacent periods), and a second application collapses that pair, giving
`"a."` — so `clean_text (clean_text text) ≠ clean_text text` at this
input. -/
theorem clean_text_idem_counterexample :
    cleanText (cleanText "a. .") ≠ cleanText "a. ." ∧
    cleanText "a. ." = "a.." ∧ cleanText (cleanText "a. .") = "a." := by
  refine ⟨by decide, by decide, by decide⟩

/-- C6, amended: `clean_text` is idempotent for every input whose cleaned
result contains no two adjacent periods.  (The sole source of
non-idempotence is the `\s+([.!?,])` substitution merging a period with
a preceding period; when the cleaned text has no adjacent period pair,
every stage of a second `clean_text` pass is the identity.) -/
theorem clean_text_idem_amended (s : String)
    (h : hasAdjDots (cleanText s).toList = false) :
    cleanText (cleanText s) = cleanText s := by
  have hdd : NoDD (cleanTextL s.toList) :=
    (hasAdjDots_eq_false_iff _).mp h
  show (cleanTextL (cleanText s).toList).asString = (cleanTextL s.toList).asString
  have htl : (cleanText s).toList = cleanTextL s.toList := rfl
  rw [htl, cleanTextL_idem_aux hdd]

/-- C6, witness for the amended theorem at a concrete input. -/
theorem clean_text_idem_amended_witness :
    hasAdjDots (cleanText "Hello  world. Bye").toList = false ∧
    cleanText (cleanText "Hello  world. Bye") = cleanText "Hello  world. Bye" :=
  ⟨by decide, clean_text_idem_amended "Hello  world. Bye" (by decide)⟩

/-- C10: for every input string, the output of `clean_text` contains no
`'0'`, `'1'` or `'|'` character: the OCR-fix pass unconditionally
replaces every `'0'` by `'O'`, every `'1'` by `'l'` and every `'|'` by
`'I'`, and no later stage of the pipeline reintroduces them, so digits 0
and 1 anywhere in the source text never survive cleaning. -/
theorem clean_text_no_ocr_chars (s : String) :
    ((cleanText s).toList.all fun c => !(c == '0' || c == '1' || c == '|')) = true := by
  rw [List.all_eq_true]
  intro c hc
  have hmem : c ∈ cleanTextL s.toList := hc
  have hno := (clean_canon s.toList).2.2.1 c hmem
  simp only [Bool.not_eq_true', Bool.or_eq_false_iff, beq_eq_false_iff_ne, ne_eq]
  exact ⟨⟨hno.1, hno.2.1⟩, hno.2.2⟩

/-! ## `_api_call_with_enhanced_retries` (src/core/transformer.py, lines 61–102)

The remote call is modelled as an oracle `op : ℕ → Except String α`
giving the outcome of each successive invocation of `call_func` (`.error`
carries `str(e)` for a raised exception).  The runner is instrumented
with the number of invocations made and the sequence of `time.sleep`
delays performed, so the claims about call counts and backoff delays can
be stated directly. -/

/-- Python's `in` operator on strings: `listBeginsWith n h` is "h starts
with n". -/
def listBeginsWith : List Char → List Char → Bool
  | [], _ => true
  | _ :: _, [] => false
  | c :: cs, d :: ds => c = d && listBeginsWith cs ds

/-- `needle in hay` for character lists. -/
def listContainsSub (needle : List Char) : List Char → Bool
  | [] => needle.isEmpty
  | c :: cs => listBeginsWith needle (c :: cs) || listContainsSub needle cs

/-- Python `needle in hay` for strings. -/
def strContains (hay needle : String) : Bool :=
  listContainsSub needle.toList hay.toList

/-- Line 81: `"429" in error_str or "Too Many Requests" in error_str or
"RESOURCE_EXHAUSTED" in error_str`. -/
def quotaSignature (errorStr : String) : Bool :=
  strContains errorStr "429" || strContains errorStr "Too Many Requests" ||
    strContains errorStr "RESOURCE_EXHAUSTED"

/-- Class attribute `EXTENDED_RETRIES` (line 21). -/
def EXTENDED_RETRIES : ℕ := 3

/-- Class attribute `EXTENDED_RETRY_DELAYS` (line 22), in seconds. -/
def EXTENDED_RETRY_DELAYS : List ℕ := [5, 10, 15]

/-- Observable outcome of `_api_call_with_enhanced_retries`: the returned
value or re-raised exception, the number of invocations of `call_func`,
and the `time.sleep` delays performed, in order. -/
structure RetryTrace (α : Type) where
  result : Except String α
  calls : ℕ
  delays : List ℕ

/-- The extended-retry loop (lines 86–99): `for i in
range(EXTENDED_RETRIES)`: sleep `EXTENDED_RETRY_DELAYS[i]`, re-invoke
`call_func`; return its value on success; on failure re-raise when `i`
is the last index, otherwise continue.  (Were the loop to fall through —
impossible, since the last iteration returns or raises — the Python
function would return `None`; the unreachable branch records that.) -/
def extendedRetryLoop {α : Type} (op : ℕ → Except String α)
    (i calls : ℕ) (delays : List ℕ) : RetryTrace α :=
  if h : i < EXTENDED_RETRIES then
    let delays' := delays ++ [EXTENDED_RETRY_DELAYS.getD i 0]
    match op calls with
    | .ok v => ⟨.ok v, calls + 1, delays'⟩
    | .error e =>
      if i = EXTENDED_RETRIES - 1 then ⟨.error e, calls + 1, delays'⟩
      else extendedRetryLoop op (i + 1) (calls + 1) delays'
  else ⟨.error "unreachable: extended loop exited without returning", calls, delays⟩
termination_by EXTENDED_RETRIES - i
decreasing_by
  simp only [EXTENDED_RETRIES] at *
  omega

/-- `_api_call_with_enhanced_retries` (lines 61–102): first invocation;
on an exception whose message matches the quota signature, enter the
extended-retry loop; otherwise re-raise. -/
def runEnhancedRetries {α : Type} (op : ℕ → Except String α) : RetryTrace α :=
  match op 0 with
  | .ok v => ⟨.ok v, 1, []⟩
  | .error e =>
    if quotaSignature e then extendedRetryLoop op 0 1 []
    else ⟨.error e, 1, []⟩

/-- C7: for an operation that raises an exception whose message matches a
rate-limit signature ("429", "Too Many Requests", or
"RESOURCE_EXHAUSTED") on its first two invocations and succeeds on the
third, `_api_call_with_enhanced_retries` returns the success value, the
operation is invoked exactly 3 times, and exactly two blocking delays of
5 seconds then 10 seconds occur between invocations. -/
theorem retry_two_quota_then_success {α : Type} (op : ℕ → Except String α)
    (v : α) (e0 e1 : String)
    (h0 : op 0 = .error e0) (hq0 : quotaSignature e0 = true)
    (h1 : op 1 = .error e1) (hq1 : quotaSignature e1 = true)
    (h2 : op 2 = .ok v) :
    runEnhancedRetries op = ⟨.ok v, 3, [5, 10]⟩ := by
  simp [runEnhancedRetries, h0, hq0, extendedRetryLoop, h1, h2,
    EXTENDED_RETRIES, EXTENDED_RETRY_DELAYS]

/-- Operation for the C7 witness: quota errors on the first two
invocations, success on the third. -/
def quotaOpTwice : ℕ → Except String ℕ := fun n =>
  match n with
  | 0 => .error "429 Too Many Requests"
  | 1 => .error "RESOURCE_EXHAUSTED: quota exceeded"
  | _ => .ok 7

/-- C7, witness at a concrete operation. -/
theorem retry_two_quota_then_success_witness :
    runEnhancedRetries quotaOpTwice = ⟨.ok 7, 3, [5, 10]⟩ :=
  retry_two_quota_then_success quotaOpTwice 7 _ _ rfl (by decide) rfl (by decide) rfl

/-- C8: for an operation that raises a rate-limit-signature exception on
every invocation, `_api_call_with_enhanced_retries` raises after the
operation has been invoked exactly 1 (initial) + EXTENDED_RETRIES (= 3)
= 4 times, re-raising the final extended attempt's exception (after
delays of 5, 10 and 15 seconds). -/
theorem retry_quota_exhaustion {α : Type} (op : ℕ → Except String α)
    (errs : ℕ → String)
    (hall : ∀ n, op n = .error (errs n))
    (hq : ∀ n, quotaSignature (errs n) = true) :
    runEnhancedRetries op = ⟨.error (errs 3), 4, [5, 10, 15]⟩ := by
  simp [runEnhancedRetries, hall 0, hq 0, extendedRetryLoop, hall 1, hall 2,
    hall 3, EXTENDED_RETRIES, EXTENDED_RETRY_DELAYS]

/-- Operation for the C8 witness: a quota error on every invocation. -/
def quotaOpAlways : ℕ → Except String ℕ :=
  fun _ => .error "HTTP 429: Too Many Requests"

/-- C8, witness at a concrete operation. -/
theorem retry_quota_exhaustion_witness :
    runEnhancedRetries quotaOpAlways =
      ⟨.error "HTTP 429: Too Many Requests", 4, [5, 10, 15]⟩ :=
  retry_quota_exhaustion quotaOpAlways (fun _ => "HTTP 429: Too Many Requests")
    (fun _ => rfl)
    (fun _ => (by decide : quotaSignature "HTTP 429: Too Many Requests" = true))

/-! ## Exact executable rationals

Python's numeric values in the transformer (ints, decimal float
literals such as `0.1`/`0.7`/`1.5`, JSON numbers, and divisions of
those) are modelled as exact rationals: numerator/denominator pairs
with a positive denominator, not reduced, so that every arithmetic step
is a kernel-computable integer operation.  (Python floats round to
binary; for the budget fractions used in this code the rounding never
moves an `int(...)` result, and the exact value is the documented
intent.) -/

structure PyRat where
  num : ℤ
  den : ℤ
  deriving DecidableEq

def PyRat.ofInt (i : ℤ) : PyRat := ⟨i, 1⟩

def PyRat.add (a b : PyRat) : PyRat :=
  ⟨a.num * b.den + b.num * a.den, a.den * b.den⟩

def PyRat.sub (a b : PyRat) : PyRat :=
  ⟨a.num * b.den - b.num * a.den, a.den * b.den⟩

def PyRat.mul (a b : PyRat) : PyRat := ⟨a.num * b.num, a.den * b.den⟩

/-- Division, keeping the denominator positive.  (Dividing by an exact
zero would produce denominator 0; every division in the modelled code
is guarded — the guard in `_generate_main_content` is claim C5's
subject.) -/
def PyRat.div (a b : PyRat) : PyRat :=
  let n := a.num * b.den
  let d := a.den * b.num
  if d < 0 then ⟨-n, -d⟩ else ⟨n, d⟩

/-- `a < b`, valid for the positive denominators every constructed
value has. -/
def PyRat.blt (a b : PyRat) : Bool := a.num * b.den < b.num * a.den

/-- `a > 0`. -/
def PyRat.isPos (a : PyRat) : Bool := PyRat.blt (PyRat.ofInt 0) a

/-- Python `int(x)`: truncation toward zero. -/
def pyInt (q : PyRat) : ℤ := Int.tdiv q.num q.den

/-! ## Per-topic word allocation (`_generate_main_content`, lines 680–689)

```python
total_duration = sum(t['duration_minutes'] for t in structure_data['topics'])
total_duration = total_duration if total_duration > 0 else 1
for topic in structure_data['topics']:
    ratio = topic['duration_minutes'] / total_duration
    topic_words[topic['title']] = int(target_words * ratio)
``` -/

/-- Python `sum(...)`: a left fold of `+` from 0. -/
def pyRatSum (l : List PyRat) : PyRat := l.foldl PyRat.add (PyRat.ofInt 0)

/-- Lines 681–683: the sum of the topic durations, replaced by 1 when it
is not positive (the division-by-zero guard). -/
def effectiveDenominator (durations : List PyRat) : PyRat :=
  let total := pyRatSum durations
  if total.isPos then total else PyRat.ofInt 1

/-- Lines 688–689: one topic's word allocation,
`int(target_words * (duration / total_duration))`. -/
def topicAlloc (targetWords : ℤ) (d denom : PyRat) : ℤ :=
  pyInt (PyRat.mul (PyRat.ofInt targetWords) (PyRat.div d denom))

/-- The per-topic allocations of the loop at lines 687–689, in topic
order. -/
def topicAllocations (targetWords : ℤ) (durations : List PyRat) : List ℤ :=
  durations.map fun d => topicAlloc targetWords d (effectiveDenominator durations)

/-- C4, counterexample: for topic durations [10, 20, 30] minutes and a
main-content budget of 700 words, the allocations computed by
`_generate_main_content` are [116, 233, 350] — not the claimed
[175, 350, 175], whose first entry is off by 59 words, far beyond
rounding. -/
theorem topic_alloc_counterexample :
    topicAllocations 700 [.ofInt 10, .ofInt 20, .ofInt 30] = [116, 233, 350] ∧
    topicAllocations 700 [.ofInt 10, .ofInt 20, .ofInt 30] ≠ [175, 350, 175] ∧
    (175 : ℤ) - 116 = 59 := by
  refine ⟨by decide, by decide, by decide⟩

/-- C4, amended: for durations [10, 20, 30] and a main budget of 700
words, the allocations are [116, 233, 350] = [int(700·10/60),
int(700·20/60), int(700·30/60)]: proportional to each topic's share of
the 60-minute total up to one unit of truncation (each allocation `a`
satisfies `a·60 ≤ 700·d < (a+1)·60`), and their sum 699 is at most the
main budget. -/
theorem topic_alloc_amended :
    topicAllocations 700 [.ofInt 10, .ofInt 20, .ofInt 30] = [116, 233, 350] ∧
    (116 + 233 + 350 : ℤ) ≤ 700 ∧
    ((116 : ℤ) * 60 ≤ 700 * 10 ∧ 700 * 10 < (116 + 1) * 60) ∧
    ((233 : ℤ) * 60 ≤ 700 * 20 ∧ 700 * 20 < (233 + 1) * 60) ∧
    ((350 : ℤ) * 60 ≤ 700 * 30 ∧ 700 * 30 < (350 + 1) * 60) := by
  refine ⟨by decide, by decide, by decide, by decide, by decide⟩

/-- C5: for an outline in which every topic reports
`duration_minutes = 0`, the denominator used by the allocation is 1 (no
division by zero occurs), and the allocation deterministically assigns
each topic `int(budget · (0/1)) = 0` words. -/
theorem zero_duration_allocation (durations : List PyRat) (budget : ℤ)
    (hz : ∀ d ∈ durations, d = PyRat.ofInt 0) :
    effectiveDenominator durations = PyRat.ofInt 1 ∧
    topicAllocations budget durations = durations.map fun _ => 0 := by
  have hzero : PyRat.add (PyRat.ofInt 0) (PyRat.ofInt 0) = PyRat.ofInt 0 := by
    simp [PyRat.add, PyRat.ofInt]
  have hsum : ∀ ds : List PyRat, (∀ d ∈ ds, d = PyRat.ofInt 0) →
      ds.foldl PyRat.add (PyRat.ofInt 0) = PyRat.ofInt 0 := by
    intro ds
    induction ds with
    | nil => intro _; rfl
    | cons d ds ih =>
      intro h
      rw [List.foldl_cons, h d (by simp), hzero]
      exact ih fun x hx => h x (List.mem_cons_of_mem _ hx)
  have hden : effectiveDenominator durations = PyRat.ofInt 1 := by
    rw [effectiveDenominator, pyRatSum, hsum durations hz]
    decide
  refine ⟨hden, ?_⟩
  rw [topicAllocations]
  refine List.map_congr_left fun d hd => ?_
  rw [hz d hd, hden]
  simp [topicAlloc, PyRat.mul, PyRat.div, PyRat.ofInt, pyInt]

/-- C5, witness at a concrete all-zero outline. -/
theorem zero_duration_allocation_witness :
    effectiveDenominator [.ofInt 0, .ofInt 0, .ofInt 0] = PyRat.ofInt 1 ∧
    topicAllocations 700 [.ofInt 0, .ofInt 0, .ofInt 0] = [0, 0, 0] := by
  have h := zero_duration_allocation [.ofInt 0, .ofInt 0, .ofInt 0] 700 (by simp)
  simpa using h

/-! ## Parsed JSON values

`json.loads` produces Python values; the inductive `Json` models them
(`null`/`bool`/`num`/`str`/`arr`/`obj`).  Python `==` on these values is
decidable equality; the nested induction forces a hand-written
comparison. -/

inductive Json where
  | null : Json
  | bool (b : Bool) : Json
  | num (q : PyRat) : Json
  | str (s : String) : Json
  | arr (items : List Json) : Json
  | obj (fields : List (String × Json)) : Json

mutual

def Json.beq : Json → Json → Bool
  | .null, .null => true
  | .bool a, .bool b => a == b
  | .num a, .num b => a == b
  | .str a, .str b => a == b
  | .arr xs, .arr ys => Json.beqList xs ys
  | .obj fs, .obj gs => Json.beqFields fs gs
  | _, _ => false

def Json.beqList : List Json → List Json → Bool
  | [], [] => true
  | x :: xs, y :: ys => Json.beq x y && Json.beqList xs ys
  | _, _ => false

def Json.beqFields : List (String × Json) → List (String × Json) → Bool
  | [], [] => true
  | (k, v) :: fs, (k2, v2) :: gs =>
    k == k2 && Json.beq v v2 && Json.beqFields fs gs
  | _, _ => false

end

theorem Json.beq_eq : ∀ a b : Json, Json.beq a b = true ↔ a = b := by
  refine Json.beq.induct
    (fun a b => Json.beq a b = true ↔ a = b)
    (fun fs gs => Json.beqFields fs gs = true ↔ fs = gs)
    (fun xs ys => Json.beqList xs ys = true ↔ xs = ys)
    ?_ ?_ ?_ ?_ ?_ ?_ ?_ ?_ ?_ ?_ ?_ ?_ ?_
  · simp [Json.beq]
  · intro a b; simp [Json.beq]
  · intro a b; simp [Json.beq]
  · intro a b; simp [Json.beq]
  · intro xs ys ih; simpa [Json.beq] using ih
  · intro fs gs ih; simpa [Json.beq] using ih
  · intro t x h1 h2 h3 h4 h5 h6
    constructor
    · intro hbeq
      cases t <;> cases x <;>
        first
          | exact (h1 rfl rfl).elim
          | exact (h2 _ _ rfl rfl).elim
          | exact (h3 _ _ rfl rfl).elim
          | exact (h4 _ _ rfl rfl).elim
          | exact (h5 _ _ rfl rfl).elim
          | exact (h6 _ _ rfl rfl).elim
          | simp [Json.beq] at hbeq
    · rintro rfl
      cases t with
      | null => exact (h1 rfl rfl).elim
      | bool b => exact (h2 b b rfl rfl).elim
      | num q => exact (h3 q q rfl rfl).elim
      | str s => exact (h4 s s rfl rfl).elim
      | arr xs => exact (h5 xs xs rfl rfl).elim
      | obj fs => exact (h6 fs fs rfl rfl).elim
  · simp [Json.beqList]
  · intro x xs y ys ih1 ih3
    simp [Json.beqList, Bool.and_eq_true, ih1, ih3]
  · intro t x h1 h2
    constructor
    · intro hbeq
      cases t <;> cases x <;>
        first
          | exact (h1 rfl rfl).elim
          | exact (h2 _ _ _ _ rfl rfl).elim
          | simp [Json.beqList] at hbeq
    · rintro rfl
      cases t with
      | nil => exact (h1 rfl rfl).elim
      | cons a as => exact (h2 a as a as rfl rfl).elim
  · simp [Json.beqFields]
  · intro k v fs k2 v2 gs ih1 ih2
    simp [Json.beqFields, Bool.and_eq_true, ih1, ih2, and_assoc]
  · intro t x h1 h2
    constructor
    · intro hbeq
      cases t with
      | nil =>
        cases x with
        | nil => exact (h1 rfl rfl).elim
        | cons b bs => simp [Json.beqFields] at hbeq
      | cons a as =>
        cases x with
        | nil => simp [Json.beqFields] at hbeq
        | cons b bs => exact (h2 a.1 a.2 as b.1 b.2 bs (by simp) (by simp)).elim
    · rintro rfl
      cases t with
      | nil => exact (h1 rfl rfl).elim
      | cons a as => exact (h2 a.1 a.2 as a.1 a.2 as (by simp) (by simp)).elim

instance : BEq Json := ⟨Json.beq⟩

instance : LawfulBEq Json where
  eq_of_beq h := (Json.beq_eq _ _).mp h
  rfl := (Json.beq_eq _ _).mpr rfl

instance : DecidableEq Json :=
  fun a b => decidable_of_iff (Json.beq a b = true) (Json.beq_eq a b)

/-! ## `json.loads` (used at transformer.py lines 353, 364, 438)

An executable recursive-descent parser for the JSON grammar accepted by
`json.loads`: objects, arrays, strings with the standard escapes,
numbers (integers and floats are merged into `ℚ`), `true`/`false`/
`null`, with JSON whitespace between tokens and the whole input required
to be consumed.  (Python extras not exercised by this repository —
`NaN`/`Infinity` literals and astral `\uXXXX` surrogate pairs — are not
modelled.)  The recursion is fuelled so that every run of the parser is
a kernel-computable function of its input. -/

def jsonWsChar (c : Char) : Bool :=
  c = ' ' || c = '\t' || c = '\n' || c = '\r'

def skipJsonWs (l : List Char) : List Char := l.dropWhile jsonWsChar

def isDigitChar (c : Char) : Bool := '0' ≤ c && c ≤ '9'

def hexVal : Char → Option ℕ
  | c =>
    if '0' ≤ c && c ≤ '9' then some (c.toNat - 48)
    else if 'a' ≤ c && c ≤ 'f' then some (c.toNat - 87)
    else if 'A' ≤ c && c ≤ 'F' then some (c.toNat - 55)
    else none

/-- Decode a JSON string body after the opening quote: returns the
decoded characters and the rest of the input after the closing quote. -/
def parseStrBody : List Char → Option (List Char × List Char)
  | [] => none
  | c :: cs =>
    if c = '"' then some ([], cs)
    else if c = '\\' then
      match cs with
      | [] => none
      | e :: es =>
        if e = '"' then (parseStrBody es).map fun p => ('"' :: p.1, p.2)
        else if e = '\\' then (parseStrBody es).map fun p => ('\\' :: p.1, p.2)
        else if e = '/' then (parseStrBody es).map fun p => ('/' :: p.1, p.2)
        else if e = 'b' then (parseStrBody es).map fun p => ('\x08' :: p.1, p.2)
        else if e = 'f' then (parseStrBody es).map fun p => ('\x0c' :: p.1, p.2)
        else if e = 'n' then (parseStrBody es).map fun p => ('\n' :: p.1, p.2)
        else if e = 'r' then (parseStrBody es).map fun p => ('\r' :: p.1, p.2)
        else if e = 't' then (parseStrBody es).map fun p => ('\t' :: p.1, p.2)
        else if e = 'u' then
          match es with
          | h1 :: h2 :: h3 :: h4 :: rest =>
            match hexVal h1, hexVal h2, hexVal h3, hexVal h4 with
            | some a, some b, some c2, some d =>
              (parseStrBody rest).map fun p =>
                (Char.ofNat (((a * 16 + b) * 16 + c2) * 16 + d) :: p.1, p.2)
            | _, _, _, _ => none
          | _ => none
        else none
    else (parseStrBody cs).map fun p => (c :: p.1, p.2)

def digitsToNat (l : List Char) : ℕ :=
  l.foldl (fun n c => 10 * n + (c.toNat - 48)) 0

def pow10 : ℤ → PyRat
  | .ofNat n => ⟨10 ^ n, 1⟩
  | .negSucc n => ⟨1, 10 ^ (n + 1)⟩

/-- Parse a JSON number (sign, integer part without spurious leading
zero, optional fraction, optional exponent) into an exact rational. -/
def parseNumber (l : List Char) : Option (PyRat × List Char) :=
  let sp : Bool × List Char :=
    match l with
    | '-' :: rest => (true, rest)
    | _ => (false, l)
  let neg := sp.1
  let l1 := sp.2
  let ip := l1.takeWhile isDigitChar
  let l2 := l1.dropWhile isDigitChar
  if ip.isEmpty then none
  else if 1 < ip.length && ip.headD '0' = '0' then none
  else
    let frp : List Char × List Char × Bool :=
      match l2 with
      | '.' :: rest => (rest.takeWhile isDigitChar, rest.dropWhile isDigitChar, true)
      | _ => ([], l2, false)
    let fr := frp.1
    let l3 := frp.2.1
    if frp.2.2 && fr.isEmpty then none
    else
      let exp : Bool × Bool × List Char × List Char :=
        match l3 with
        | 'e' :: '+' :: r2 => (true, false, r2.takeWhile isDigitChar, r2.dropWhile isDigitChar)
        | 'e' :: '-' :: r2 => (true, true, r2.takeWhile isDigitChar, r2.dropWhile isDigitChar)
        | 'e' :: r2 => (true, false, r2.takeWhile isDigitChar, r2.dropWhile isDigitChar)
        | 'E' :: '+' :: r2 => (true, false, r2.takeWhile isDigitChar, r2.dropWhile isDigitChar)
        | 'E' :: '-' :: r2 => (true, true, r2.takeWhile isDigitChar, r2.dropWhile isDigitChar)
        | 'E' :: r2 => (true, false, r2.takeWhile isDigitChar, r2.dropWhile isDigitChar)
        | _ => (false, false, [], l3)
      let hasExp := exp.1
      let expNeg := exp.2.1
      let ed := exp.2.2.1
      let l4 := if hasExp then exp.2.2.2 else l3
      if hasExp && ed.isEmpty then none
      else
        let mant : PyRat := .ofInt (digitsToNat (ip ++ fr) : ℤ)
        let e : ℤ := (if expNeg then -(digitsToNat ed : ℤ) else (digitsToNat ed : ℤ)) - fr.length
        let v := PyRat.mul mant (pow10 e)
        some ((if neg then ⟨-v.num, v.den⟩ else v), l4)

/-- What the fuelled parser is currently parsing: a value, the members
of an object (after `{` and any first-member whitespace), or the items
of an array. -/
inductive ParseJob where
  | value : ParseJob
  | members : ParseJob
  | items : ParseJob

/-- The recursive core of `json.loads`, structurally recursive on fuel
(one unit per grammar recursion, so any fuel beyond twice the input
length is enough). -/
def parseRun : ℕ → ParseJob → List Char → Option (Json × List Char)
  | 0, _, _ => none
  | fuel + 1, .value, l =>
    match skipJsonWs l with
    | [] => none
    | c :: cs =>
      if c = '\x7b' then
        match skipJsonWs cs with
        | '\x7d' :: rest => some (.obj [], rest)
        | rest => parseRun fuel .members rest
      else if c = '[' then
        match skipJsonWs cs with
        | ']' :: rest => some (.arr [], rest)
        | rest => parseRun fuel .items rest
      else if c = '"' then
        (parseStrBody cs).map fun p => (.str p.1.asString, p.2)
      else if c = 't' then
        match cs with
        | 'r' :: 'u' :: 'e' :: rest => some (.bool true, rest)
        | _ => none
      else if c = 'f' then
        match cs with
        | 'a' :: 'l' :: 's' :: 'e' :: rest => some (.bool false, rest)
        | _ => none
      else if c = 'n' then
        match cs with
        | 'u' :: 'l' :: 'l' :: rest => some (.null, rest)
        | _ => none
      else
        (parseNumber (c :: cs)).map fun p => (.num p.1, p.2)
  | fuel + 1, .members, l =>
    match skipJsonWs l with
    | '"' :: cs =>
      match parseStrBody cs with
      | none => none
      | some (k, r1) =>
        match skipJsonWs r1 with
        | ':' :: r2 =>
          match parseRun fuel .value r2 with
          | none => none
          | some (v, r3) =>
            match skipJsonWs r3 with
            | ',' :: r4 =>
              match parseRun fuel .members r4 with
              | some (.obj fields, r5) => some (.obj ((k.asString, v) :: fields), r5)
              | _ => none
            | '\x7d' :: r4 => some (.obj [(k.asString, v)], r4)
            | _ => none
        | _ => none
    | _ => none
  | fuel + 1, .items, l =>
    match parseRun fuel .value l with
    | none => none
    | some (v, r1) =>
      match skipJsonWs r1 with
      | ',' :: r2 =>
        match parseRun fuel .items r2 with
        | some (.arr items, r3) => some (.arr (v :: items), r3)
        | _ => none
      | ']' :: r2 => some (.arr [v], r2)
      | _ => none

/-- `json.loads(s)`: parse one JSON value and require the entire input
(up to trailing whitespace) to be consumed; `none` models the raised
`json.JSONDecodeError`. -/
def jsonParse (s : String) : Option Json :=
  match parseRun (2 * s.length + 2) .value s.toList with
  | some (j, rest) => if skipJsonWs rest = [] then some j else none
  | none => none

example : jsonParse "\x7b\x7d" = some (.obj []) := rfl
example : jsonParse "not json at all" = none := rfl
example : jsonParse "null" = some .null := rfl
example : jsonParse " [true, false] " = some (.arr [.bool true, .bool false]) := rfl
example : jsonParse "\x7b\"a\": \"b\"\x7d" = some (.obj [("a", .str "b")]) := rfl
example : jsonParse "\x7b\"a\": \x7d" = none := rfl
example : jsonParse "Lecture on Transcript Topic" = none := rfl

/-! ## Completion-endpoint oracle and defensive response checks

`openai_client.chat.completions.create` is modelled as an oracle value:
either a raised exception (`str(e)` kept) or a response object whose
fields may each be missing, which is exactly the shape the defensive
checks at transformer.py lines 328–350 / 413–435 / 627–649 guard
against. -/

structure ApiMessage where
  content : Option String

structure ApiChoice where
  message : Option ApiMessage

structure ApiResponse where
  choices : List ApiChoice

/-- Outcome of one completion call. -/
inductive ApiOutcome where
  | raise (msg : String) : ApiOutcome
  | ok (response : Option ApiResponse) : ApiOutcome

/-- Python `str.strip()` on strings. -/
def pyStripStr (s : String) : String := (pyStrip s.toList).asString

/-- The defensive-check cascade (lines 328–350 and twins): `content`
stays `None` when the response is falsy, its choices list is empty, the
first choice has no message, or the message content is falsy (absent or
the empty string); otherwise the stripped content. -/
def responseContent (response : Option ApiResponse) : Option String :=
  match response with
  | none => none
  | some r =>
    match r.choices with
    | [] => none
    | choice :: _ =>
      match choice.message with
      | none => none
      | some m =>
        match m.content with
        | none => none
        | some s => if s = "" then none else some (pyStripStr s)

/-- The minimal fallback content substituted when the checks leave
`content` as `None` (lines 350 and 435). -/
def structureErrorPlaceholder : String :=
  "Lecture on Transcript Topic\n\nWe apologize, but there was an error generating the structure for this lecture."

/-- Content handed to the parse attempts, after the defensive checks. -/
def contentOrPlaceholder (response : Option ApiResponse) : String :=
  (responseContent response).getD structureErrorPlaceholder

/-! ## `_generate_detailed_structure` and `_generate_fallback_structure`
(transformer.py lines 262–487) -/

/-- `re.search(r'(\x7b[\s\S]*\x7d)', content)` (line 361): the greedy
`[\s\S]*` makes the match run from the first `\x7b` to the last
`\x7d` that follows it; no match otherwise. -/
def extractBraced (l : List Char) : Option (List Char) :=
  match l.findIdx? (· = '\x7b') with
  | none => none
  | some p =>
    match l.reverse.findIdx? (· = '\x7d') with
    | none => none
    | some ri =>
      let q := l.length - 1 - ri
      if p < q then some ((l.drop p).take (q - p + 1)) else none

/-- Lines 352–368: try `json.loads` on the content directly, then on the
brace-delimited substring; `none` means both parse attempts failed. -/
def parsedStructureContent (content : String) : Option Json :=
  match jsonParse content with
  | some j => some j
  | none =>
    match extractBraced content.toList with
    | none => none
    | some sub =>
      match jsonParse sub.asString with
      | some j => some j
      | none => none

/-- The hardcoded last-resort outline (lines 466–487, identical to
441–462).  `target_duration // 2` is Python floor division. -/
def hardcodedStructure (targetDuration : ℤ) : Json :=
  .obj [
    ("title", .str "Lecture on Transcript Topic"),
    ("learning_objectives", .arr [.str "Understand key concepts",
      .str "Apply knowledge", .str "Evaluate outcomes"]),
    ("topics", .arr [
      .obj [
        ("title", .str "Main Topic 1"),
        ("key_concepts", .arr [.str "Concept 1", .str "Concept 2"]),
        ("subtopics", .arr [.str "Subtopic 1", .str "Subtopic 2"]),
        ("duration_minutes", .num (.ofInt (Int.fdiv targetDuration 2))),
        ("objective_links", .arr [.num (.ofInt 1), .num (.ofInt 2)])
      ],
      .obj [
        ("title", .str "Main Topic 2"),
        ("key_concepts", .arr [.str "Concept 3", .str "Concept 4"]),
        ("subtopics", .arr [.str "Subtopic 3", .str "Subtopic 4"]),
        ("duration_minutes", .num (.ofInt (Int.fdiv targetDuration 2))),
        ("objective_links", .arr [.num (.ofInt 2), .num (.ofInt 3)])
      ]
    ]),
    ("practical_applications", .arr [.str "Application 1", .str "Application 2"]),
    ("key_terms", .arr [.str "Term 1", .str "Term 2", .str "Term 3"])
  ]

/-- `_generate_fallback_structure` (lines 379–487) given the outcome `o`
of its own completion call: a raised exception (outer `except`, line
463) or unparsable content (line 439) falls back to the hardcoded
outline; parsable content is returned as-is (line 438).  Every branch
returns — the function cannot raise. -/
def generateFallbackStructure (o : ApiOutcome) (targetDuration : ℤ) : Json :=
  match o with
  | .raise _ => hardcodedStructure targetDuration
  | .ok response =>
    match jsonParse (contentOrPlaceholder response) with
    | some j => j
    | none => hardcodedStructure targetDuration

/-- The primary request's contribution in `_generate_detailed_structure`:
`none` when the call raised (outer `except`, line 374) or when neither
parse attempt on its content succeeded — all routes that reach
`_generate_fallback_structure`. -/
def primaryParsedStructure (o1 : ApiOutcome) : Option Json :=
  match o1 with
  | .raise _ => none
  | .ok response => parsedStructureContent (contentOrPlaceholder response)

/-- `_generate_detailed_structure` (lines 262–377): `o1` is the primary
request's outcome; `o2` is the fallback request's outcome (used only
when the fallback is reached). -/
def generateDetailedStructure (o1 o2 : ApiOutcome) (targetDuration : ℤ) : Json :=
  match primaryParsedStructure o1 with
  | some j => j
  | none => generateFallbackStructure o2 targetDuration

/-- Reading `structure_data['topics']` as a list: the items of the
`topics` field when present and a JSON array, else nothing.  Object
lookup takes the last occurrence of a key, as `json.loads` does for
duplicate keys. -/
def jsonObjGet? : List (String × Json) → String → Option Json
  | [], _ => none
  | (k, v) :: fs, key =>
    match jsonObjGet? fs key with
    | some v2 => some v2
    | none => if k = key then some v else none

def jsonTopics : Json → List Json
  | .obj fields =>
    match jsonObjGet? fields "topics" with
    | some (.arr items) => items
    | _ => []
  | _ => []

/-- A primary response whose content is the valid JSON text `"{}"`. -/
def emptyObjResponse : ApiOutcome :=
  .ok (some ⟨[⟨some ⟨some "\x7b\x7d"⟩⟩]⟩)

/-- C1, counterexample: the structure-planning operation does NOT return
an outline with non-empty topics for every completion response.  A
primary response whose content is the valid JSON text `"{}"` parses
directly, and `_generate_detailed_structure` returns the parsed empty
object as-is — an outline with no topics sequence at all (the fallback
chain is never consulted). -/
theorem structure_plan_counterexample :
    generateDetailedStructure emptyObjResponse emptyObjResponse 30 = .obj [] ∧
    jsonTopics (.obj []) = [] :=
  ⟨rfl, rfl⟩

/-- C1, amended: the structure-planning operation never raises — every
completion outcome (raised exception, missing fields, empty choices,
unparsable content) produces a returned structure through the cascading
fallback chain (direct JSON parse, regex extraction of a brace-delimited
substring, the simplified fallback request, the hardcoded outline).  The
returned structure is guaranteed to have non-empty topics only when the
reached parse stages fail: whenever the primary outcome yields no
parsable JSON and the fallback outcome's content (when its call does not
raise) is also unparsable, the hardcoded two-topic outline is returned,
and its topics sequence has length 2.  A response whose content parses
as JSON is returned as-is and may lack topics entirely. -/
theorem structure_plan_amended (o1 o2 : ApiOutcome) (d : ℤ)
    (h1 : primaryParsedStructure o1 = none)
    (h2 : ∀ resp, o2 = .ok resp → jsonParse (contentOrPlaceholder resp) = none) :
    generateDetailedStructure o1 o2 d = hardcodedStructure d ∧
    (jsonTopics (hardcodedStructure d)).length = 2 := by
  constructor
  · rw [generateDetailedStructure, h1]
    match o2 with
    | .raise m => rfl
    | .ok resp =>
      rw [generateFallbackStructure, h2 resp rfl]
  · rfl

/-- A primary response whose content is not JSON and contains no braced
substring. -/
def unparsableResponse : ApiOutcome :=
  .ok (some ⟨[⟨some ⟨some "not json at all"⟩⟩]⟩)

/-- A completion call that raised (e.g. a network failure). -/
def raisedOutcome : ApiOutcome := .raise "APIConnectionError: network unreachable"

/-- C1, witness: with the primary content `"not json at all"` and a
fallback call that raises, the hardcoded two-topic outline is
returned. -/
theorem structure_plan_amended_witness :
    generateDetailedStructure unparsableResponse raisedOutcome 30 =
      hardcodedStructure 30 ∧
    (jsonTopics (hardcodedStructure 30)).length = 2 :=
  structure_plan_amended unparsableResponse raisedOutcome 30 rfl
    (fun _ h => nomatch h)

/-! ## Python-level operations on parsed JSON values

The orchestrator accesses the parsed structure with `d['key']`,
`d.get(key, default)`, iteration, `', '.join(...)` and f-string
interpolation; each can raise, modelled in `Except PyErr`. -/

inductive PyErr where
  | keyError (key : String) : PyErr
  | typeError (msg : String) : PyErr
  | attributeError (msg : String) : PyErr
  | zeroDivisionError : PyErr
  deriving DecidableEq

/-- Python subscription `value['key']` on a parsed-JSON value: the
field's value, a `KeyError` when the key is missing from a dict, a
`TypeError` when the value is not a dict.  (The transformer only ever
subscripts with string keys.) -/
def Json.item : Json → String → Except PyErr Json
  | .obj fields, key =>
    match jsonObjGet? fields key with
    | some v => .ok v
    | none => .error (.keyError key)
  | _, _ => .error (.typeError "object is not subscriptable")

/-- Python `dict.get(key, default)` (used at line 506); an
`AttributeError` when the value is not a dict. -/
def Json.getDefault : Json → String → Json → Except PyErr Json
  | .obj fields, key, dflt => .ok ((jsonObjGet? fields key).getD dflt)
  | _, _, _ => .error (.attributeError "object has no attribute get")

/-- Iterating a parsed-JSON value (`for x in v`): the items of an
array; a `TypeError` otherwise.  (Python would iterate a dict's keys or
a string's characters; no claim depends on those cases and their
elements would fail the subsequent subscriptions the same way.) -/
def Json.asIter : Json → Except PyErr (List Json)
  | .arr items => .ok items
  | _ => .error (.typeError "object is not iterable")

/-- A summand of Python `sum(...)`: numbers add; bools are ints;
anything else raises a `TypeError`. -/
def Json.asNum : Json → Except PyErr PyRat
  | .num q => .ok q
  | .bool b => .ok (.ofInt (if b then 1 else 0))
  | _ => .error (.typeError "unsupported operand type for +")

/-- Python `sep.join(xs)`: every element must be a `str`. -/
def joinStrs (sep : String) : List Json → Except PyErr String
  | [] => .ok ""
  | [.str s] => .ok s
  | .str s :: x :: rest => do
    let tail ← joinStrs sep (x :: rest)
    pure (s ++ sep ++ tail)
  | _ => .error (.typeError "sequence item: expected str instance")

/-- Decimal digits of a natural number, most significant first
(fuelled so the kernel can run it). -/
def natDecimalAux : ℕ → ℕ → List Char
  | 0, _ => []
  | fuel + 1, n =>
    if n = 0 then []
    else natDecimalAux fuel (n / 10) ++ [Char.ofNat (48 + n % 10)]

def natDecimal (n : ℕ) : String :=
  if n = 0 then "0" else (natDecimalAux (n + 1) n).asString

def intDecimal (i : ℤ) : String :=
  if i < 0 then "-" ++ natDecimal i.natAbs else natDecimal i.natAbs

/-- Python `str(x)` for the f-string interpolations of parsed-JSON
values.  Strings interpolate as themselves; integral numbers by their
decimal form.  (Non-integral numbers, lists and dicts are rendered
approximately — the prompts under claim only interpolate strings and
integers.) -/
def pyStr : Json → String
  | .str s => s
  | .bool b => if b then "True" else "False"
  | .null => "None"
  | .num q => if q.den = 1 then intDecimal q.num
              else intDecimal q.num ++ "/" ++ intDecimal q.den
  | .arr _ => "[...]"
  | .obj _ => "\x7b...\x7d"

/-- Python `s[-n:]` (last `n` characters). -/
def strTakeLast (n : ℕ) (s : String) : String :=
  (s.toList.drop (s.toList.length - n)).asString

/-- Python `s[:n]` (first `n` characters). -/
def strTakeFirst (n : ℕ) (s : String) : String :=
  (s.toList.take n).asString

/-- Python `str.capitalize()`: first character upper-cased, the rest
lower-cased (ASCII, which is all the section names use). -/
def asciiLowerChar (c : Char) : Char :=
  if 'A' ≤ c && c ≤ 'Z' then Char.ofNat (c.toNat + 32) else c

def asciiUpperCase (c : Char) : Char :=
  if 'a' ≤ c && c ≤ 'z' then Char.ofNat (c.toNat - 32) else c

def pyCapitalize (s : String) : String :=
  match s.toList with
  | [] => ""
  | c :: cs => (asciiUpperCase c :: cs.map asciiLowerChar).asString

/-- `TextProcessor.count_words` (text_processor.py lines 47–58): the
number of `\b\w+\b` matches, i.e. of maximal word-character runs
(ASCII letters, digits, underscore). -/
def isWordChar (c : Char) : Bool :=
  ('a' ≤ c && c ≤ 'z') || ('A' ≤ c && c ≤ 'Z') || ('0' ≤ c && c ≤ '9') || c = '_'

def countWordsGo (inWord : Bool) : List Char → ℕ
  | [] => 0
  | c :: cs =>
    if isWordChar c then (if inWord then 0 else 1) + countWordsGo true cs
    else countWordsGo false cs

def countWords (s : String) : ℕ := countWordsGo false s.toList

example : countWords "hello, world - 42!" = 3 := by decide

/-! ## `GenerationContext` (transformer.py lines 184–191)

The mutable `context` dict threaded through section generation.
`current_topic` is a key first assigned by `_generate_main_content`
(line 700); reading it before that is a `KeyError`, hence the
`Option`. -/

structure GenContext where
  current_section : String
  covered_topics : List Json
  pending_topics : List Json
  key_terms : List Json
  current_narrative : String
  learning_objectives : Json
  current_topic : Option Json := none

/-- Python `set.update(xs)` on `key_terms` (line 704), modelled by the
set's insertion-ordered elements. -/
def setUpdate (s : List Json) (xs : List Json) : List Json :=
  xs.foldl (fun acc x => if x ∈ acc then acc else acc ++ [x]) s

/-! ## `_generate_section` (transformer.py lines 489–660) -/

/-- Python `f'\x7b n :02d\x7d'` for the non-negative minute counts
used by the summary time marker. -/
def formatTwoDigits (n : ℤ) : String :=
  if 0 ≤ n && n < 10 then "0" ++ intDecimal n else intDecimal n

/-- Lines 502–512: `[00:00]` for the introduction; for the summary,
`max(5, int(sum(topic.get('duration_minutes', 5)) - 5))` formatted as
`[MM:00]`; a literal `[XX:XX]` placeholder otherwise.  (Note the `.get`
with default 5: unlike line 681, a topic without `duration_minutes`
raises nothing here.) -/
def sectionTimeMarker (sectionType : String) (structureData : Json) :
    Except PyErr String :=
  if sectionType = "introduction" then .ok "[00:00]"
  else if sectionType = "summary" then do
    let topics ← (← structureData.item "topics").asIter
    let durations ← topics.mapM fun t => do
      (← t.getDefault "duration_minutes" (.num (.ofInt 5))).asNum
    let adjusted := max 5 (pyInt (PyRat.sub (pyRatSum durations) (.ofInt 5)))
    pure ("[" ++ formatTwoDigits adjusted ++ ":00]")
  else .ok "[XX:XX]"

/-- Line 514: the optional user-instruction block (`initial_prompt` is
falsy when absent or empty). -/
def userInstructions (initialPrompt : Option String) : String :=
  match initialPrompt with
  | none => ""
  | some p =>
    if p = "" then "" else "\nAdditional user instructions:\n" ++ p ++ "\n"

/-- The section-specific instruction block for `'introduction'`
(lines 534–539). -/
def introInstructions : String :=
  "\n            - Start with an engaging hook\n            - Present clear learning objectives\n            - Preview main topics\n            - Set expectations for the lecture\n            "

/-- The section-specific instruction block for `'main'`
(lines 541–553) — the deep-dive block naming the current topic's
title, key concepts and subtopics. -/
def mainInstructions (topicTitle keyConcepts subtopics : String) : String :=
  "\n            Discuss one main topic in depth.\n            \n            Topic: " ++
    topicTitle ++ "\n            Key concepts: " ++ keyConcepts ++
    "\n            Subtopics: " ++ subtopics ++
    "\n            \n            - Start with appropriate time marker\n            - Explain key concepts clearly\n            - Include real-world examples\n            - Connect to learning objectives\n            - Use appropriate time markers within the section\n            "

/-- The section-specific instruction block for `'practical'`
(lines 554–565). -/
def practicalInstructions (applications : String) : String :=
  "\n            Create a practical applications section with:\n            \n            - Start with appropriate time marker\n            - 2-3 practical examples or case studies\n            - Clear connections to the main topics\n            - Interactive elements (questions, exercises)\n            \n            Practical applications to cover:\n            " ++
    applications ++ "\n            "

/-- The section-specific instruction block for `'summary'`
(lines 566–574). -/
def summaryInstructions : String :=
  "\n            Create a concise summary:\n            \n            - Start with appropriate time marker\n            - Reinforce key learning points\n            - Brief recap of main topics\n            - Call to action or follow-up suggestions\n            "

/-- The context continuity block (lines 577–588). -/
def contextBlock (covered pending narrative : String) : String :=
  "\n            \n            Previously covered topics:\n            " ++ covered ++
    "\n            \n            Pending topics:\n            " ++ pending ++
    "\n            \n            Recent narrative context:\n            " ++ narrative ++
    "\n            "

def firstSectionNote : String :=
  "\n            \n            This is the FIRST section of the lecture. Make it engaging and set the tone.\n            "

def lastSectionNote : String :=
  "\n            \n            This is the FINAL section of the lecture. Ensure proper closure and reinforcement.\n            "

def timeMarkersNote : String :=
  "\n            \n            IMPORTANT: Include appropriate time markers [MM:SS] throughout the section.\n            "

/-- The prompt construction of `_generate_section` (lines 514–607),
given the already-computed time marker.  The dispatch on `section_type`
compares with the literals `'introduction'`, `'main'`, `'practical'`,
`'summary'` — any other value (notably the `"main_topic_<title>"`
strings passed by `_generate_main_content`) adds no section-specific
block. -/
def buildSectionPrompt (timeMarker sectionType : String) (structureData : Json)
    (originalText : String) (targetWords : ℤ) (context : Option GenContext)
    (isFirst isLast : Bool) (initialPrompt : Option String) :
    Except PyErr String := do
  let title ← structureData.item "title"
  let objs ← (← structureData.item "learning_objectives").asIter
  let objsJoined ← joinStrs ", " objs
  let terms ← (← structureData.item "key_terms").asIter
  let termsJoined ← joinStrs ", " terms
  let base :=
    "\n        You are creating a " ++ sectionType ++ " section for a " ++
      timeMarker ++ " teaching lecture on \"" ++ pyStr title ++ "\".\n        " ++
      userInstructions initialPrompt ++
      "\n        Target word count: " ++ intDecimal targetWords ++
      " words (very important)\n        \n        Learning objectives:\n        " ++
      objsJoined ++ "\n        \n        Key terms:\n        " ++ termsJoined ++
      "\n        \n        Original source:\n        " ++
      strTakeFirst 500 originalText ++ "...\n        "
  let withSection ←
    if sectionType = "introduction" then pure (base ++ introInstructions)
    else if sectionType = "main" then do
      match context with
      | none => Except.error (.typeError "NoneType object is not subscriptable")
      | some ctx =>
        match ctx.current_topic with
        | none => Except.error (.keyError "current_topic")
        | some topic => do
          let tt ← topic.item "title"
          let kcJoined ← joinStrs ", " (← (← topic.item "key_concepts").asIter)
          let stJoined ← joinStrs ", " (← (← topic.item "subtopics").asIter)
          pure (base ++ mainInstructions (pyStr tt) kcJoined stJoined)
    else if sectionType = "practical" then do
      let paJoined ← joinStrs ", " (← (← structureData.item "practical_applications").asIter)
      pure (base ++ practicalInstructions paJoined)
    else if sectionType = "summary" then pure (base ++ summaryInstructions)
    else pure base
  let withContext ←
    match context with
    | none => pure withSection
    | some ctx => do
      let covJoined ← joinStrs ", " ctx.covered_topics
      let pendJoined ← joinStrs ", " ctx.pending_topics
      pure (withSection ++ contextBlock covJoined pendJoined ctx.current_narrative)
  let withNotes :=
    if isFirst then withContext ++ firstSectionNote
    else if isLast then withContext ++ lastSectionNote
    else withContext
  pure (if sectionType ≠ "introduction" then withNotes ++ timeMarkersNote else withNotes)

/-- Class attribute `MAX_TOKENS` (line 25). -/
def MAX_TOKENS : ℤ := 64000

/-- `_calculate_max_tokens` (lines 662–668):
`min(int(target_words * 1.5) + 1000, MAX_TOKENS)`. -/
def calculateMaxTokens (targetWords : ℤ) : ℤ :=
  min (pyInt (PyRat.mul (.ofInt targetWords) ⟨3, 2⟩) + 1000) MAX_TOKENS

/-- The value produced by the body of `_generate_section` after the
prompt is built (lines 609–660): a raised API exception is caught at
line 657 ("(Error during generation)"); a response without usable
content degrades at line 649 ("(Error retrieving generated content)");
otherwise the stripped content is returned. -/
def sectionResult (timeMarker sectionType : String) (outcome : ApiOutcome) : String :=
  match outcome with
  | .raise _ =>
    timeMarker ++ " " ++ pyCapitalize sectionType ++
      " (Error during generation)\n\nWe apologize, but there was an error generating this section."
  | .ok response =>
    match responseContent response with
    | some content => content
    | none =>
      timeMarker ++ " " ++ pyCapitalize sectionType ++
        " (Error retrieving generated content)\n\nWe apologize, but there was an error generating the content for this section."

/-- `_generate_section` (lines 489–660): the time marker and the prompt
are computed BEFORE the `try` block, so malformed structures or
contexts raise out of the function; every failure after that point is
absorbed into a placeholder string. -/
def generateSection (sectionType : String) (structureData : Json)
    (originalText : String) (targetWords : ℤ) (context : Option GenContext)
    (isFirst isLast : Bool) (initialPrompt : Option String)
    (outcome : ApiOutcome) : Except PyErr String := do
  let timeMarker ← sectionTimeMarker sectionType structureData
  let _prompt ← buildSectionPrompt timeMarker sectionType structureData originalText
    targetWords context isFirst isLast initialPrompt
  let _maxTokens := calculateMaxTokens targetWords
  pure (sectionResult timeMarker sectionType outcome)

/-! ## `_generate_main_content` (transformer.py lines 670–720) -/

structure TopicTracking where
  covered : List Json
  pending : List Json
  deriving DecidableEq

/-- Lines 701–703: on processing a topic, move its title from
`pending_topics` to `covered_topics` (append to covered, remove the
first occurrence from pending) — only when it is still pending. -/
def updateTopicTracking (st : TopicTracking) (title : Json) : TopicTracking :=
  if title ∈ st.pending then
    { covered := st.covered ++ [title], pending := st.pending.erase title }
  else st

/-- Lookup in the `topic_words` dict (line 697); keyed by title, a
later duplicate title having overwritten an earlier one, as in a
dict build. -/
def dictGetLast : List (Json × ℤ) → Json → Option ℤ
  | [], _ => none
  | (k, v) :: rest, key =>
    match dictGetLast rest key with
    | some v2 => some v2
    | none => if k = key then some v else none

/-- The per-topic generation loop (lines 696–718), carrying the context
and the index of the next section-generation call.  Note the section
type passed to `_generate_section`: the f-string
`"main_topic_" + str(topic['title'])`. -/
def mainContentLoop (structureData : Json) (originalText : String)
    (topicWords : List (Json × ℤ)) (initialPrompt : Option String)
    (api : ℕ → ApiOutcome) :
    List Json → GenContext → ℕ → Except PyErr (List String × GenContext)
  | [], ctx, _ => .ok ([], ctx)
  | topic :: rest, ctx, callIdx => do
    let title ← topic.item "title"
    let topicTarget ←
      match dictGetLast topicWords title with
      | some w => Except.ok w
      | none => Except.error (.keyError "title not in topic_words")
    let tracked := updateTopicTracking ⟨ctx.covered_topics, ctx.pending_topics⟩ title
    let kcs ← (← topic.item "key_concepts").asIter
    let ctx1 : GenContext := { ctx with
      current_topic := some topic,
      covered_topics := tracked.covered,
      pending_topics := tracked.pending,
      key_terms := setUpdate ctx.key_terms kcs }
    let content ← generateSection ("main_topic_" ++ pyStr title) structureData
      originalText topicTarget (some ctx1) false false initialPrompt (api callIdx)
    let ctx2 := { ctx1 with current_narrative := strTakeLast 1000 content }
    let res ← mainContentLoop structureData originalText topicWords initialPrompt api
      rest ctx2 (callIdx + 1)
    pure (content :: res.1, res.2)

/-- `_generate_main_content` (lines 670–720): per-topic word targets
from the duration shares (the `sum` at line 681 raises `KeyError` for a
topic without `duration_minutes`), then the generation loop, then the
topic sections joined by blank lines. -/
def generateMainContent (structureData : Json) (originalText : String)
    (targetWords : ℤ) (context : GenContext) (initialPrompt : Option String)
    (api : ℕ → ApiOutcome) : Except PyErr (String × GenContext) := do
  let topics ← (← structureData.item "topics").asIter
  let durations ← topics.mapM fun t => do (← t.item "duration_minutes").asNum
  let denom := effectiveDenominator durations
  let topicWords ← topics.mapM fun t => do
    let d ← (← t.item "duration_minutes").asNum
    let title ← t.item "title"
    pure (title, topicAlloc targetWords d denom)
  let res ← mainContentLoop structureData originalText topicWords initialPrompt api
    topics context 0
  pure (String.intercalate "\n\n" res.1, res.2)

/-! ## `transform_to_lecture` (transformer.py lines 119–260) -/

/-- `_validate_word_count` (lines 104–117): computes
`abs(total_words - target_words) / target_words` — a
`ZeroDivisionError` when `target_words` is 0 — and otherwise only logs
threshold comparisons. -/
def validateWordCount (totalWords : ℕ) (targetWords minWords maxWords : ℤ) :
    Except PyErr Unit :=
  if targetWords = 0 then .error .zeroDivisionError
  else
    let _deviation :=
      PyRat.div (.ofInt |(totalWords : ℤ) - targetWords|) (.ofInt targetWords)
    let _outOfRange :=
      decide ((totalWords : ℤ) < minWords) || decide (maxWords < (totalWords : ℤ))
    .ok ()

/-- `_validate_coherence` (lines 722–741): iterates
`learning_objectives` (each objective's `.split()` requires a string),
`key_terms` (each term's `.lower()` requires a string), and each
topic's `key_concepts` (each concept's `.lower()` requires a string).
All checks only log, so the model keeps exactly the operations that can
raise. -/
def validateCoherence (content : String) (structureData : Json) :
    Except PyErr Unit := do
  let _ := content
  let objs ← (← structureData.item "learning_objectives").asIter
  let _ ← objs.mapM fun o =>
    match o with
    | .str s => Except.ok s
    | _ => Except.error (.attributeError "object has no attribute split")
  let terms ← (← structureData.item "key_terms").asIter
  let _ ← terms.mapM fun o =>
    match o with
    | .str s => Except.ok s
    | _ => Except.error (.attributeError "object has no attribute lower")
  let topics ← (← structureData.item "topics").asIter
  let _ ← topics.mapM fun t => do
    let kcs ← (← t.item "key_concepts").asIter
    kcs.mapM fun c =>
      match c with
      | .str s => Except.ok s
      | _ => Except.error (.attributeError "object has no attribute lower")
  pure ()

/-- How the `try` block of `transform_to_lecture` (lines 167–252)
ended: completed normally; failed before `full_content` was assigned at
line 241; or failed after, with `full_content` in `locals()`.  The
except handler (lines 254–260) distinguishes exactly these. -/
inductive TryOutcome where
  | completed (full : String) : TryOutcome
  | failedBefore (e : PyErr) : TryOutcome
  | failedAfter (full : String) (e : PyErr) : TryOutcome

/-- The `try` block (lines 167–252): introduction (is_first, no
context), context seeding (lines 184–191), main content, practical,
summary, concatenation (line 241), then the log-only validations
(lines 246–250), whose exceptions happen after `full_content`
exists. -/
def transformTryBody (cleanedText : String) (targetWords minWords maxWords : ℤ)
    (structureData : Json)
    (introWords mainWords practicalWords summaryWords : ℤ)
    (initialPrompt : Option String) (api : ℕ → ApiOutcome) : TryOutcome :=
  match (do
    let intro ← generateSection "introduction" structureData cleanedText
      introWords none true false initialPrompt (api 0)
    let topics ← (← structureData.item "topics").asIter
    let pending ← topics.mapM fun t => t.item "title"
    let objectives ← structureData.item "learning_objectives"
    let ctx0 : GenContext := {
      current_section := "introduction",
      covered_topics := [],
      pending_topics := pending,
      key_terms := [],
      current_narrative := strTakeLast 1000 intro,
      learning_objectives := objectives }
    let mainRes ← generateMainContent structureData cleanedText mainWords ctx0
      initialPrompt (fun i => api (1 + i))
    let ctx2 := { mainRes.2 with
      current_section := "main",
      current_narrative := strTakeLast 1000 mainRes.1 }
    let practical ← generateSection "practical" structureData cleanedText
      practicalWords (some ctx2) false false initialPrompt (api (1 + topics.length))
    let ctx3 := { ctx2 with
      current_section := "practical",
      current_narrative := strTakeLast 500 practical }
    let summary ← generateSection "summary" structureData cleanedText
      summaryWords (some ctx3) false true initialPrompt (api (2 + topics.length))
    pure (intro ++ "\n\n" ++ mainRes.1 ++ "\n\n" ++ practical ++ "\n\n" ++ summary)
    : Except PyErr String) with
  | .error e => .failedBefore e
  | .ok full =>
    match (do
      let _ ← validateWordCount (countWords full) targetWords minWords maxWords
      validateCoherence full structureData : Except PyErr Unit) with
    | .error e => .failedAfter full e
    | .ok _ => .completed full

/-- `transform_to_lecture` (lines 119–260).  `structO1`/`structO2` are
the structure and fallback completion outcomes; `api` gives the
successive section-generation outcomes (introduction 0, topic `i` as
`1 + i`, practical, summary).  The steps before the `try` (cleaning,
word budget, structure generation, the topic-title listing of line 157)
raise directly to the caller; inside the `try`, the handler returns
`full_content` when it exists (lines 257–259) and re-raises otherwise
(line 260). -/
def transformToLecture (text : String) (targetDuration : ℤ)
    (initialPrompt : Option String) (structO1 structO2 : ApiOutcome)
    (api : ℕ → ApiOutcome) : Except PyErr String := do
  let cleanedText := cleanText text
  let _inputWords := countWords cleanedText
  let targetWords : ℤ := 130 * targetDuration
  let minWords := pyInt (PyRat.mul (.ofInt targetWords) ⟨19, 20⟩)
  let maxWords := pyInt (PyRat.mul (.ofInt targetWords) ⟨21, 20⟩)
  let structureData := generateDetailedStructure structO1 structO2 targetDuration
  let topics ← (← structureData.item "topics").asIter
  let _titles ← topics.mapM fun t => t.item "title"
  let introWords := pyInt (PyRat.mul (.ofInt targetWords) ⟨1, 10⟩)
  let mainWords := pyInt (PyRat.mul (.ofInt targetWords) ⟨7, 10⟩)
  let practicalWords := pyInt (PyRat.mul (.ofInt targetWords) ⟨3, 20⟩)
  let summaryWords := pyInt (PyRat.mul (.ofInt targetWords) ⟨1, 20⟩)
  match transformTryBody cleanedText targetWords minWords maxWords structureData
      introWords mainWords practicalWords summaryWords initialPrompt api with
  | .completed full => pure full
  | .failedAfter full _ => pure full
  | .failedBefore e => Except.error e

/-! ## Claim C3: the deep-dive block never reaches a main-topic prompt -/

/-- A concrete topic for exercising the main-content prompt. -/
def topicAlgebra : Json :=
  .obj [
    ("title", .str "Algebra"),
    ("key_concepts", .arr [.str "Groups"]),
    ("subtopics", .arr [.str "Rings"]),
    ("duration_minutes", .num (.ofInt 10))
  ]

def structAlgebra : Json :=
  .obj [
    ("title", .str "Mathematics"),
    ("learning_objectives", .arr [.str "Objective A"]),
    ("topics", .arr [topicAlgebra]),
    ("practical_applications", .arr [.str "Application X"]),
    ("key_terms", .arr [.str "Term Y"])
  ]

/-- The context state at the moment `_generate_main_content` calls
`_generate_section` for `topicAlgebra` (lines 699–715): topic moved to
covered, `current_topic` set, key concepts folded into key terms. -/
def ctxAlgebra : GenContext := {
  current_section := "introduction",
  covered_topics := [.str "Algebra"],
  pending_topics := [],
  key_terms := [.str "Groups"],
  current_narrative := "An introduction narrative.",
  learning_objectives := .arr [.str "Objective A"],
  current_topic := some topicAlgebra }

set_option maxRecDepth 4000 in
/-- C3 does not hold of the code: `_generate_main_content` passes the
section type `"main_topic_" + topic title` (line 707), which never
equals the literal `'main'` that `_generate_section` dispatches on
(line 540), so the deep-dive block naming the topic's key_concepts and
subtopics is dead code for main-content subsections.  Concretely, for
the topic "Algebra" with key concept "Groups" and subtopic "Rings", the
prompt built for its subsection contains neither "Groups" nor "Rings"
nor the "Key concepts:" heading — while the same call with the literal
'main' (the dead branch) would contain all of them. -/
theorem main_topic_prompt_missing_concepts :
    (decide ("main_topic_" ++ pyStr (.str "Algebra") = "main") = false) ∧
    ((buildSectionPrompt "[XX:XX]" ("main_topic_" ++ pyStr (.str "Algebra"))
        structAlgebra "Source text about mathematics." 100 (some ctxAlgebra)
        false false none).map fun p =>
      (strContains p "Key concepts:", strContains p "Groups", strContains p "Rings"))
      = .ok (false, false, false) ∧
    ((buildSectionPrompt "[XX:XX]" "main"
        structAlgebra "Source text about mathematics." 100 (some ctxAlgebra)
        false false none).map fun p =>
      (strContains p "Key concepts:", strContains p "Groups", strContains p "Rings"))
      = .ok (true, true, true) :=
  ⟨rfl, rfl, rfl⟩

/-! ## Claim C9: the covered/pending partition invariant -/

theorem tracking_aux (pre : List Json) :
    ∀ (suf cov : List Json), (pre ++ suf).Nodup →
      pre.foldl updateTopicTracking ⟨cov, pre ++ suf⟩ = ⟨cov ++ pre, suf⟩ := by
  induction pre with
  | nil => intro suf cov _; simp
  | cons t pre ih =>
    intro suf cov hnd
    rw [List.foldl_cons]
    have hupd : updateTopicTracking ⟨cov, (t :: pre) ++ suf⟩ t =
        ⟨cov ++ [t], pre ++ suf⟩ := by
      rw [updateTopicTracking]
      simp
    rw [hupd]
    have := ih suf (cov ++ [t]) (by simpa using hnd.of_cons)
    rw [this]
    simp

/-- C9: for an outline whose topic titles are pairwise distinct,
`_generate_main_content`'s pending/covered bookkeeping (lines 701–703,
seeded from the full title list at line 187) satisfies: after the first
`k` topics, `covered_topics` is exactly the first `k` titles in outline
order and `pending_topics` exactly the remaining titles; after all
topics, `pending_topics` is empty and `covered_topics` lists every
title exactly once in outline order; and at every stage each title
lies in exactly one of the two lists. -/
theorem topic_tracking_partition (titles : List Json) (hnd : titles.Nodup) :
    (∀ k, (titles.take k).foldl updateTopicTracking ⟨[], titles⟩ =
        ⟨titles.take k, titles.drop k⟩) ∧
    titles.foldl updateTopicTracking ⟨[], titles⟩ = ⟨titles, []⟩ ∧
    (∀ k, ∀ t ∈ titles,
      t ∈ ((titles.take k).foldl updateTopicTracking ⟨[], titles⟩).covered ↔
      ¬(t ∈ ((titles.take k).foldl updateTopicTracking ⟨[], titles⟩).pending)) := by
  have hchar : ∀ k, (titles.take k).foldl updateTopicTracking ⟨[], titles⟩ =
      ⟨titles.take k, titles.drop k⟩ := by
    intro k
    have := tracking_aux (titles.take k) (titles.drop k) []
      (by rw [List.take_append_drop]; exact hnd)
    rw [List.take_append_drop] at this
    simpa using this
  refine ⟨hchar, ?_, ?_⟩
  · have := hchar titles.length
    simpa using this
  · intro k t ht
    rw [hchar k]
    have hsplit : titles = titles.take k ++ titles.drop k :=
      (List.take_append_drop k titles).symm
    have hnd2 : (titles.take k ++ titles.drop k).Nodup := by
      rw [← hsplit]; exact hnd
    have hdisj := (List.nodup_append.mp hnd2).2.2
    constructor
    · intro hcov hpend
      exact hdisj hcov hpend
    · intro hpend
      rcases List.mem_append.mp (by rw [hsplit] at ht; exact ht) with h1 | h2
      · exact h1
      · exact absurd h2 hpend

/-- C9, witness at a concrete two-topic outline. -/
theorem topic_tracking_partition_witness :
    [Json.str "Alpha", Json.str "Beta"].foldl updateTopicTracking
      ⟨[], [Json.str "Alpha", Json.str "Beta"]⟩ =
      ⟨[Json.str "Alpha", Json.str "Beta"], []⟩ :=
  (topic_tracking_partition [Json.str "Alpha", Json.str "Beta"] (by simp)).2.1

/-! ## Claim C2: what the except handler of `transform_to_lecture` returns -/

/-- A structure response parsing to an outline whose single topic lacks
`duration_minutes`: `_generate_main_content` then raises `KeyError` at
line 681, after the introduction has already been generated. -/
def missingDurationJsonText : String :=
  "\x7b\"title\": \"Sample Lecture\", \"learning_objectives\": [\"Objective A\"], \"topics\": [\x7b\"title\": \"Topic One\", \"key_concepts\": [\"Concept A\"], \"subtopics\": [\"Subtopic A\"]\x7d], \"practical_applications\": [\"Application A\"], \"key_terms\": [\"Term A\"]\x7d"

def missingDurationOutcome : ApiOutcome :=
  .ok (some ⟨[⟨some ⟨some missingDurationJsonText⟩⟩]⟩)

set_option maxRecDepth 20000 in
example : jsonParse missingDurationJsonText =
    some (.obj [
      ("title", .str "Sample Lecture"),
      ("learning_objectives", .arr [.str "Objective A"]),
      ("topics", .arr [.obj [
        ("title", .str "Topic One"),
        ("key_concepts", .arr [.str "Concept A"]),
        ("subtopics", .arr [.str "Subtopic A"])]]),
      ("practical_applications", .arr [.str "Application A"]),
      ("key_terms", .arr [.str "Term A"])]) := rfl

/-- An API that always answers with usable section text. -/
def plainSectionApi : ℕ → ApiOutcome :=
  fun _ => .ok (some ⟨[⟨some ⟨some "Generated section text."⟩⟩]⟩)

set_option maxRecDepth 20000 in
/-- C2, counterexample: a run in which partial content exists when a
pre-concatenation step raises, yet the exception propagates.  With the
`missingDurationOutcome` outline, the introduction call succeeds (the
partial content "Generated section text." exists), then
`_generate_main_content` raises `KeyError('duration_minutes')` at line
681 — and `transform_to_lecture` re-raises it instead of returning the
introduction, because the handler's `'full_content' in locals()` test
(line 256) only sees content after the concatenation at line 241. -/
theorem transform_partial_counterexample :
    generateSection "introduction"
      (generateDetailedStructure missingDurationOutcome missingDurationOutcome 30)
      (cleanText "Quantum mechanics describes nature at the smallest scales.")
      (pyInt (PyRat.mul (.ofInt (130 * 30)) ⟨1, 10⟩)) none true false none
      (plainSectionApi 0) = .ok "Generated section text." ∧
    transformToLecture "Quantum mechanics describes nature at the smallest scales."
      30 none missingDurationOutcome missingDurationOutcome plainSectionApi
      = .error (.keyError "duration_minutes") :=
  ⟨rfl, rfl⟩

set_option maxRecDepth 20000 in
/-- C2, amended: the handler returns content only when the concatenated
`full_content` of line 241 already exists, regardless of earlier partial
content.  For every API behaviour and every target duration: (i) with
the `missingDurationOutcome` outline the introduction call succeeds —
partial content exists — yet `transform_to_lecture` raises
`KeyError('duration_minutes')` from `_generate_main_content`; (ii) an
exception after concatenation is absorbed: with target duration 0 the
`ZeroDivisionError` of `_validate_word_count` is swallowed and the
concatenated content returned. -/
theorem transform_partial_amended (api : ℕ → ApiOutcome) (d : ℤ) :
    (∃ s, generateSection "introduction"
      (generateDetailedStructure missingDurationOutcome missingDurationOutcome d)
      (cleanText "Quantum mechanics describes nature at the smallest scales.")
      (pyInt (PyRat.mul (.ofInt (130 * d)) ⟨1, 10⟩)) none true false none
      (api 0) = .ok s) ∧
    transformToLecture "Quantum mechanics describes nature at the smallest scales."
      d none missingDurationOutcome missingDurationOutcome api
      = .error (.keyError "duration_minutes") ∧
    (∃ full, transformToLecture
      "Quantum mechanics describes nature at the smallest scales."
      0 none raisedOutcome raisedOutcome api = .ok full) :=
  ⟨⟨_, rfl⟩, rfl, ⟨_, rfl⟩⟩

end ScriptGen
